import Mathlib

/-!
# Verification of the hubspot-automations reporting scripts

Shallow embedding of the two ETL scripts
`weekly_product_report.py` and `hubspot_weekly_report_dynamic_2026.py`.

Modelling conventions:
* Python strings are modelled as `List Char` (named `Str` below); Python
  `str.lower`, `str.strip`, `str.split(";")`, `str.replace(c, " ")` and
  slicing become explicit functions on character lists (ASCII view of the
  unicode rules).
* JSON record fields are `Option Str`: `none` models an absent key.
* Spreadsheet cell values are `Val` (string or number); an openpyxl cell
  that holds no value is `none : Option Val`.  A worksheet is its grid of
  rows (`List Row`), row 1 being the header row.  Only cell *values* are
  modelled; fonts, fills, widths and similar styling are out of scope for
  the specification.
* Numbers are exact rationals (`ℚ`), with the IEEE specials kept symbolic
  (`PyVal`).  Every property proved below concerns exact zero / identity
  cases that binary floating point also computes exactly, so the
  idealisation is harmless for the stated claims.
* The HTTP transport is an oracle: a finite list of responses consumed in
  order.  Fallible code returns `Except` or an explicit result inductive.
-/

namespace HubspotAutomations

/-- Python strings, modelled as lists of characters. -/
abbrev Str := List Char

/-- Python truthiness for a string: non-empty. -/
def strTruthy (s : Str) : Bool := !s.isEmpty

/-- Python `x or y` for strings: `x` when truthy, else `y`. -/
def pyOr (x y : Str) : Str := if strTruthy x then x else y

/-- Python `x or y` where `x` is an optional string (`None` is falsy). -/
def pyOrO (x : Option Str) (y : Str) : Str :=
  match x with
  | some s => if strTruthy s then s else y
  | none => y

/-- Python `str.lower()` (ASCII view). -/
def pyLower (s : Str) : Str := s.map Char.toLower

/-- The whitespace characters stripped by Python `str.strip()` (ASCII view). -/
def isPySpace (c : Char) : Bool :=
  c = ' ' || c = '\t' || c = '\n' || c = '\r' || c = '\x0b' || c = '\x0c'

/-- Python `str.strip()`. -/
def pyStrip (s : Str) : Str :=
  ((s.dropWhile isPySpace).reverse.dropWhile isPySpace).reverse

/-- Python `str.split(c)` for a one-character separator
(`"".split(";") = [""]`, empty pieces are kept). -/
def splitOnChar (sep : Char) : Str → List Str
  | [] => [[]]
  | x :: xs =>
    if x = sep then [] :: splitOnChar sep xs
    else
      match splitOnChar sep xs with
      | [] => [[x]]
      | h :: t => (x :: h) :: t

/-- Python `str(x)` where `x` is an optional string (`str(None) = "None"`). -/
def pyStrOfOpt : Option Str → Str
  | none => "None".data
  | some s => s

/-- A spreadsheet cell value: a string or a number
(the two scripts only ever store these). -/
inductive Val where
  | vstr (s : Str)
  | vnum (q : ℚ)
  deriving DecidableEq, Repr

/-- An openpyxl cell: either empty (`None`) or holding a value. -/
abbrev Cell := Option Val

/-- A worksheet row, as read by `iter_rows(values_only=True)`. -/
abbrev Row := List Cell

/-- A worksheet: the list of its rows; row 1 (index 0) is the header row. -/
abbrev Sheet := List Row

/-- A workbook: sheets in order, identified by their titles
(openpyxl sheet titles are unique within a workbook). -/
abbrev Workbook := List (Str × Sheet)

/-- Python `str(value)` for a cell value.  For numbers we use the decimal
rendering of the rational; no claim below depends on the exact rendering of
a number, only on whether it can coincide with a given week string. -/
def pyStr : Val → Str
  | .vstr s => s
  | .vnum q => (toString q).data

/-- Python truthiness of a cell value (`""` and `0` are falsy). -/
def valTruthy : Val → Bool
  | .vstr s => strTruthy s
  | .vnum q => q != 0

/-- An optional string as a cell (`None` stays an empty cell). -/
def optCell (o : Option Str) : Cell := o.map .vstr

/-! ### Python dictionaries and lists

A `dict` is an insertion-ordered association list with unique keys:
assigning to an existing key replaces the value in place, assigning to a
fresh key appends it. -/

/-- `d[k] = v` on a Python dict. -/
def dictSet {κ α : Type} [DecidableEq κ] : List (κ × α) → κ → α → List (κ × α)
  | [], k, v => [(k, v)]
  | (k', v') :: t, k, v =>
    if k' = k then (k, v) :: t else (k', v') :: dictSet t k v

/-- `d.get(k)` on a Python dict. -/
def dictGet? {κ α : Type} [DecidableEq κ] : List (κ × α) → κ → Option α
  | [], _ => none
  | (k', v') :: t, k => if k' = k then some v' else dictGet? t k

/-- `d.get(k, default)` on a Python dict. -/
def dictGetD {κ α : Type} [DecidableEq κ] (l : List (κ × α)) (k : κ) (d : α) : α :=
  (dictGet? l k).getD d

/-- `x in l` on a Python list (by `==`). -/
def listMem {α : Type} [DecidableEq α] (l : List α) (x : α) : Bool :=
  l.any (fun a => decide (a = x))

/-- `l.index(x)`: index of the first element equal to `x`
(callers guard with `x in l`; on a miss this returns `l.length`). -/
def listIdxOf {α : Type} [DecidableEq α] : List α → α → Nat
  | [], _ => 0
  | a :: t, x => if a = x then 0 else listIdxOf t x + 1

end HubspotAutomations

namespace HubspotAutomations

/-! ## Spreadsheet grid primitives (openpyxl, value level)

`ws.cell(row=r, column=c)` is 1-indexed; reading outside the stored grid
yields an empty cell; writing extends the grid as needed.  `max_row` and
`max_column` are at least 1 even for an empty sheet. -/

/-- `ws.cell(row=r, column=c).value` (1-indexed; empty outside the grid). -/
def getCell (ws : Sheet) (r c : Nat) : Cell := ((ws.getD (r - 1) []).getD (c - 1) none)

/-- Pad a row on the right with empty cells up to length `n`. -/
def padTo (l : List Cell) (n : Nat) : List Cell := l ++ List.replicate (n - l.length) none

/-- Pad a sheet at the bottom with empty rows up to `n` rows. -/
def padRows (ws : Sheet) (n : Nat) : Sheet := ws ++ List.replicate (n - ws.length) []

/-- `ws.cell(row=r, column=c, value=v)` (1-indexed write, grid-extending). -/
def setCell (ws : Sheet) (r c : Nat) (v : Val) : Sheet :=
  let ws' := padRows ws r
  ws'.set (r - 1) ((padTo (ws'.getD (r - 1) []) c).set (c - 1) (some v))

/-- `ws.max_row` (at least 1, even for an empty sheet). -/
def maxRow (ws : Sheet) : Nat := max 1 ws.length

/-- `ws.max_column` (at least 1, even for an empty sheet). -/
def maxCol (ws : Sheet) : Nat := max 1 (ws.foldl (fun m row => max m row.length) 0)

end HubspotAutomations

namespace HubspotAutomations

/-! ## `replace_rows_for_snapshot` (weekly_product_report.py, lines 387-405)

```python
def replace_rows_for_snapshot(ws, rows, snapshot_week_start):
    to_delete = []
    for i, r in enumerate(ws.iter_rows(min_row=2, values_only=True), start=2):
        if not r or not r[0]:
            continue
        if str(r[0]) == snapshot_week_start:
            to_delete.append(i)
    for i in reversed(to_delete):
        ws.delete_rows(i, 1)
    for row in rows:
        ws.append(row)
```
-/

/-- The loop guard of `replace_rows_for_snapshot`: a data row is marked for
deletion iff it is non-empty, its first cell is truthy, and the `str` form
of that first cell equals `snapshot_week_start`. -/
def matchRow (snapshot : Str) (r : Row) : Bool :=
  match r.head? with
  | none => false                    -- `not r`
  | some none => false               -- `not r[0]` (cell is None)
  | some (some v) => valTruthy v && (pyStr v == snapshot)

/-- The first `for` loop: collect the sheet indices (1-based, starting at
row 2) of the rows to delete. -/
def collectToDelete (snapshot : Str) : Nat → List Row → List Nat
  | _, [] => []
  | i, r :: rest =>
      if matchRow snapshot r then i :: collectToDelete snapshot (i + 1) rest
      else collectToDelete snapshot (i + 1) rest

/-- `ws.delete_rows(i, 1)`: remove the row at 1-based sheet index `i`. -/
def deleteSheetRow (ws : Sheet) (i : Nat) : Sheet := ws.eraseIdx (i - 1)

/-- `replace_rows_for_snapshot` itself: mark, delete in reverse index order,
then append the new rows at the end of the sheet. -/
def replace_rows_for_snapshot (ws : Sheet) (rows : List Row)
    (snapshot : Str) : Sheet :=
  let toDelete := collectToDelete snapshot 2 (ws.drop 1)
  let ws' := toDelete.reverse.foldl deleteSheetRow ws
  ws' ++ rows

/-! ## `SHEET_HEADERS` and `ensure_sheet_headers` (weekly_product_report.py,
lines 28-48 and 100-107; only cell values are modelled, not styling). -/

/-- The 19 column headers of every product sheet. -/
def SHEET_HEADERS : List Str :=
  ["snapshot_week_start", "deal_id", "deal_name", "company_id",
   "company_name", "product_option", "product_raw", "pipeline_id",
   "pipeline_label", "dealstage_id", "dealstage_label", "amount",
   "closedate", "createdate", "hs_lastmodifieddate", "owner_id",
   "owner_name", "owner_email", "deal_url"].map String.data

/-- `ensure_sheet_headers`: write the headers into row 1
(`for c, h in enumerate(SHEET_HEADERS, start=1): ws.cell(row=1, column=c, value=h)`). -/
def ensure_sheet_headers (ws : Sheet) : Sheet :=
  (List.range SHEET_HEADERS.length).foldl
    (fun ws i => setCell ws 1 (i + 1) (.vstr (SHEET_HEADERS.getD i []))) ws

/-- The per-product-sheet write step of `main` (weekly_product_report.py,
lines 636-640): `ensure_sheet_headers(ws); replace_rows_for_snapshot(ws, rows, snapshot_week)`. -/
def product_sheet_run (ws : Sheet) (rows : List Row) (snapshot : Str) : Sheet :=
  replace_rows_for_snapshot (ensure_sheet_headers ws) rows snapshot

end HubspotAutomations

namespace HubspotAutomations

/-! ## `split_multicheckbox` and `build_rows` (weekly_product_report.py,
lines 189-192 and 308-384) -/

/-- `split_multicheckbox`: `[]` for a falsy value, else the `;`-separated
pieces, stripped, with blank pieces dropped. -/
def split_multicheckbox (value : Option Str) : List Str :=
  match value with
  | none => []
  | some v =>
    if strTruthy v then ((splitOnChar ';' v).map pyStrip).filter strTruthy
    else []

/-- A deal record as fetched by `list_all_deals`: `id` plus the requested
properties (`none` = property absent).  `productRaw` stands for
`props.get(product_property_name)`, the configured multi-checkbox field. -/
structure DealRec where
  id : Option Str
  dealname : Option Str
  amount : Option Str
  closedate : Option Str
  createdate : Option Str
  hs_lastmodifieddate : Option Str
  pipeline : Option Str
  dealstage : Option Str
  hubspot_owner_id : Option Str
  productRaw : Option Str
  deriving DecidableEq, Repr

/-- `f"https://app.hubspot.com/contacts/deal/{deal_id}"`. -/
def dealUrl (deal_id : Str) : Str :=
  "https://app.hubspot.com/contacts/deal/".data ++ deal_id

/-- The 19-cell row `build_rows` appends for one (deal, product) pair. -/
def buildRow (snapshot_week_start : Str) (d : DealRec) (sheet_product : Str)
    (pipeline_label stage_label : List (Str × Str))
    (deal_to_company_id company_id_to_name : List (Str × Str))
    (owners_map : List (Str × (Str × Str))) : Row :=
  let deal_id := pyStrOfOpt d.id
  let pipeline_lbl : Option Str := d.pipeline.map (fun pid => dictGetD pipeline_label pid pid)
  let stage_lbl : Option Str := d.dealstage.map (fun sid => dictGetD stage_label sid sid)
  let company_id := dictGetD deal_to_company_id deal_id []      -- `.get(deal_id, "") or ""`
  let company_name := if strTruthy company_id then dictGetD company_id_to_name company_id [] else []
  let owner_id := d.hubspot_owner_id.getD []                    -- `str(props.get(...) or "")`
  let owner_name := if strTruthy owner_id then ((dictGet? owners_map owner_id).map Prod.fst).getD [] else []
  let owner_email := if strTruthy owner_id then ((dictGet? owners_map owner_id).map Prod.snd).getD [] else []
  [some (.vstr snapshot_week_start),
   some (.vstr deal_id),
   optCell d.dealname,
   some (.vstr company_id),
   some (.vstr company_name),
   some (.vstr sheet_product),
   optCell d.productRaw,
   optCell d.pipeline,
   optCell pipeline_lbl,
   optCell d.dealstage,
   optCell stage_lbl,
   optCell d.amount,
   optCell d.closedate,
   optCell d.createdate,
   optCell d.hs_lastmodifieddate,
   some (.vstr owner_id),
   some (.vstr owner_name),
   some (.vstr owner_email),
   some (.vstr (dealUrl deal_id))]

/-- `rows_by_product[sheet_product].append(row)` (the key always exists:
`rows_by_product` is seeded with every product of interest). -/
def dictAppendRow : List (Str × List Row) → Str → Row → List (Str × List Row)
  | [], _, _ => []
  | (k', v) :: t, k, row =>
    if k' = k then (k', v ++ [row]) :: t else (k', v) :: dictAppendRow t k row

/-- The state threaded through `build_rows`: the per-product row lists and
the `seen` dedup set of `(sheet_product, deal_id)` keys. -/
abbrev BuildState := List (Str × List Row) × List (Str × Str)

/-- The body of the inner `for pl in product_labels:` loop of `build_rows`. -/
def buildRowsInner (snapshot_week_start : Str) (want : List (Str × Str))
    (pipeline_label stage_label : List (Str × Str))
    (deal_to_company_id company_id_to_name : List (Str × Str))
    (owners_map : List (Str × (Str × Str))) (d : DealRec)
    (st : BuildState) (pl : Str) : BuildState :=
  let deal_id := pyStrOfOpt d.id
  let key := pyLower (pyStrip (pyOr pl []))          -- `(pl or "").strip().lower()`
  match dictGet? want key with
  | none => st
  | some sheet_product =>
    if listMem st.2 (sheet_product, deal_id) then st
    else
      (dictAppendRow st.1 sheet_product
         (buildRow snapshot_week_start d sheet_product pipeline_label stage_label
            deal_to_company_id company_id_to_name owners_map),
       (sheet_product, deal_id) :: st.2)

/-- `build_rows` (weekly_product_report.py, lines 308-384): expand each
deal's multi-checkbox product field, keep the products of interest
(case-insensitive), deduplicate by `(product, deal_id)` via `seen`,
and collect one 19-cell row per surviving pair, grouped by product. -/
def build_rows (deals : List DealRec) (snapshot_week_start : Str)
    (opt_map pipeline_label stage_label : List (Str × Str))
    (products_interest : List Str)
    (deal_to_company_id company_id_to_name : List (Str × Str))
    (owners_map : List (Str × (Str × Str))) : List (Str × List Row) :=
  let want : List (Str × Str) :=
    products_interest.foldl (fun w p => dictSet w (pyLower p) p) []
  let init : List (Str × List Row) :=
    products_interest.foldl (fun m p => dictSet m p []) []
  let step := fun (st : BuildState) (d : DealRec) =>
    let product_values := split_multicheckbox d.productRaw
    let product_labels := product_values.map (fun v => dictGetD opt_map v v)
    product_labels.foldl
      (buildRowsInner snapshot_week_start want pipeline_label stage_label
        deal_to_company_id company_id_to_name owners_map d) st
  (deals.foldl step (init, [])).1

end HubspotAutomations

namespace HubspotAutomations

/-! ## `fetch_deals` (hubspot_weekly_report_dynamic_2026.py, lines 108-149)

The transport is an oracle: a list of responses consumed one per issued
request.  `DEBUG_MAX_PAGES` is `None`, so the debug page cap is disabled.
`backoff_sleep(attempt)` sleeps `min(2 ** attempt, 32)` seconds. -/

/-- One transport response for the deal-search endpoint: HTTP status plus,
for successful responses, the `results` payload (opaque item ids) and the
`paging.next.after` cursor. -/
structure FetchResp where
  status : Nat
  results : List Nat
  nextAfter : Option Str
  deriving DecidableEq, Repr

/-- `backoff_sleep` of the dynamic script: `min(2 ** attempt, 32)`. -/
def backoffSleep32 (attempt : Nat) : Nat := min (2 ^ attempt) 32

/-- `if not after: break` — the cursor is absent or the empty string. -/
def blankCursor : Option Str → Bool
  | none => true
  | some s => s.isEmpty

/-- Errors of the modelled fetch: a surfaced HTTP error
(`raise_for_status`), or the oracle running out of responses (the real
`while True` loop would keep issuing requests). -/
inductive FetchErr where
  | httpError (status : Nat)
  | transportExhausted
  deriving DecidableEq, Repr

/-- Result of a completed paginated fetch: the concatenated `results`, the
backoff sleeps performed (in seconds, in order), and the `after` cursor
attached to each issued request (`none` = no cursor sent). -/
structure FetchOut where
  results : List Nat
  sleeps : List Nat
  requests : List (Option Str)
  deriving DecidableEq, Repr

/-- The `while True:` loop of `fetch_deals`: on 429/5xx sleep and retry the
same request (same cursor, `attempt + 1`); on other 4xx raise; on success
extend `all_deals`, reset `attempt`, and follow `paging.next.after` until
blank. -/
def fetch_deals_go : List FetchResp → List Nat → Option Str → Nat →
    List Nat → List (Option Str) → Except FetchErr FetchOut
  | [], _, _, _, _, _ => .error .transportExhausted
  | r :: rest, acc, after, attempt, sleeps, reqs =>
    let reqs' := reqs ++ [after]
    if r.status == 429 || (500 ≤ r.status && r.status < 600) then
      fetch_deals_go rest acc after (attempt + 1)
        (sleeps ++ [backoffSleep32 (attempt + 1)]) reqs'
    else if 400 ≤ r.status then .error (.httpError r.status)
    else
      let acc' := acc ++ r.results
      if blankCursor r.nextAfter then .ok ⟨acc', sleeps, reqs'⟩
      else fetch_deals_go rest acc' r.nextAfter 0 sleeps reqs'

/-- `fetch_deals`, run against a response oracle. -/
def fetch_deals (transport : List FetchResp) : Except FetchErr FetchOut :=
  fetch_deals_go transport [] none 0 [] []

/-- A successful page of the paginated sequence. -/
structure Page where
  results : List Nat
  next : Option Str
  deriving DecidableEq, Repr

/-- The HTTP 200 response carrying a page. -/
def pageResp (p : Page) : FetchResp := ⟨200, p.results, p.next⟩

/-- A bare HTTP 429 response. -/
def r429 : FetchResp := ⟨429, [], none⟩

/-- A well-formed page chain: every page but the last carries a non-blank
continuation cursor, the last page a blank one. -/
def wfChain : List Page → Bool
  | [] => true
  | p :: rest =>
    match rest with
    | [] => blankCursor p.next
    | _ => !blankCursor p.next && wfChain rest

/-- The `after` cursors attached to the requests that fetch a page chain,
starting from cursor `a` (one request per page, advancing the cursor). -/
def chainLog : Option Str → List Page → List (Option Str)
  | _, [] => []
  | a, p :: rest => a :: chainLog p.next rest

/-- The cursor left after consuming a page chain, starting from `a`. -/
def lastNextD : Option Str → List Page → Option Str
  | a, [] => a
  | _, p :: rest => lastNextD p.next rest

end HubspotAutomations

namespace HubspotAutomations

/-! ## `hubspot_request` (weekly_product_report.py, lines 59-80)

```python
def hubspot_request(token, method, path, *, params=None, json=None, retries: int = 5):
    ...
    last = None
    for attempt in range(retries):
        r = requests.request(...)
        last = r
        if r.status_code in (429, 500, 502, 503, 504):
            time.sleep(min(2 ** attempt, 20))
            continue
        r.raise_for_status()
        ... return r.json() / {}
    if last is not None:
        last.raise_for_status()
    raise RuntimeError("hubspot_request failed without response")
```
-/

/-- A transport response for `hubspot_request`: HTTP status plus an opaque
body id. -/
structure HttpResp where
  status : Nat
  body : Nat
  deriving DecidableEq, Repr

/-- The statuses `hubspot_request` retries (note: 501 and 505-599 are NOT
in this tuple and are surfaced immediately). -/
def retryStatuses : List Nat := [429, 500, 502, 503, 504]

/-- Outcome of `hubspot_request`: success carries the body and the sleeps
performed; `fail` is a raised `HTTPError` (with the sleeps performed before
it); the other two are modelling artefacts for an exhausted oracle and the
`retries = 0` `RuntimeError`. -/
inductive HttpResult where
  | ok (body : Nat) (sleeps : List Nat)
  | fail (status : Nat) (sleeps : List Nat)
  | noResponse (sleeps : List Nat)
  | transportExhausted (sleeps : List Nat)
  deriving DecidableEq, Repr

/-- The `for attempt in range(retries)` loop of `hubspot_request`:
`remaining` counts the attempts left, `attempt` the loop variable. -/
def hubspot_request_go : List HttpResp → Nat → Nat → Option Nat → List Nat → HttpResult
  | _, 0, _, last, sleeps =>
    -- loop exhausted: `last.raise_for_status()` (last is a retried 4xx/5xx
    -- status whenever the loop ran), else the bare RuntimeError
    (match last with
     | some s => .fail s sleeps
     | none => .noResponse sleeps)
  | rs, remaining + 1, attempt, _, sleeps =>
    match rs with
    | [] => .transportExhausted sleeps
    | r :: rest =>
      if listMem retryStatuses r.status then
        hubspot_request_go rest remaining (attempt + 1) (some r.status)
          (sleeps ++ [min (2 ^ attempt) 20])
      else if 400 ≤ r.status ∧ r.status < 600 then .fail r.status sleeps
      else .ok r.body sleeps

/-- `hubspot_request` with an explicit `retries` argument (default 5). -/
def hubspot_request (transport : List HttpResp) (retries : Nat := 5) : HttpResult :=
  hubspot_request_go transport retries 0 none []

end HubspotAutomations

namespace HubspotAutomations

/-! ## Python `float()` / pandas `to_numeric` literal parsing

`float(s)` strips surrounding whitespace, then accepts an optional sign
followed by `inf`/`infinity`/`nan` (case-insensitive) or a decimal literal
(digits with optional single underscores between digits, optional fraction,
optional exponent).  Anything else raises `ValueError`.
`pd.to_numeric(..., errors="coerce")` uses the same shape but without
underscores, mapping failures to NaN.  Values are kept exact: finite
results are rationals, the IEEE specials stay symbolic. -/

/-- A parsed Python float: a finite (exact) value or an IEEE special. -/
inductive PyVal where
  | finite (q : ℚ)
  | nan
  | inf
  | ninf
  deriving DecidableEq, Repr

/-- IEEE addition on `PyVal` (`NaN` absorbs; `inf + -inf = NaN`). -/
def pyAdd : PyVal → PyVal → PyVal
  | .nan, _ => .nan
  | _, .nan => .nan
  | .inf, .ninf => .nan
  | .ninf, .inf => .nan
  | .inf, _ => .inf
  | _, .inf => .inf
  | .ninf, _ => .ninf
  | _, .ninf => .ninf
  | .finite a, .finite b => .finite (a + b)

/-- Continue a digit run already begun: more digits, or (when `allowU`) a
single underscore that sits between two digits. -/
def digitsTail (allowU : Bool) : Str → (List Char × Str)
  | [] => ([], [])
  | c :: cs =>
    if c.isDigit then
      (fun p => (c :: p.1, p.2)) (digitsTail allowU cs)
    else if allowU ∧ c = '_' then
      match cs with
      | c2 :: cs2 =>
        if c2.isDigit then (fun p => (c2 :: p.1, p.2)) (digitsTail allowU cs2)
        else ([], c :: c2 :: cs2)
      | [] => ([], [c])
    else ([], c :: cs)

/-- Consume a maximal run of digits, optionally with single underscores
between digits (`allowU`); returns the digits read and the rest. -/
def takeDigitsU (allowU : Bool) : Str → (List Char × Str)
  | [] => ([], [])
  | c :: cs =>
    if c.isDigit then (fun p => (c :: p.1, p.2)) (digitsTail allowU cs)
    else ([], c :: cs)

/-- Numeric value of a digit run. -/
def digitsToNat (ds : List Char) : Nat :=
  ds.foldl (fun n c => 10 * n + (c.toNat - '0'.toNat)) 0

/-- Parse the decimal-literal part (after the optional sign):
`digits [. digits] [exponent]` or `. digits [exponent]`, with at least one
mantissa digit and nothing left over. -/
def parseDecimal (allowU : Bool) (neg : Bool) (t : Str) : Option PyVal :=
  let (ip, r1) := takeDigitsU allowU t
  let (fp, r2) :=
    match r1 with
    | '.' :: r => (some (takeDigitsU allowU r).1, (takeDigitsU allowU r).2)
    | _ => ((none : Option (List Char)), r1)
  if ip = [] ∧ fp.getD [] = [] then none       -- no mantissa digits at all
  else
    let frac := fp.getD []
    let base : ℚ := (digitsToNat ip : ℚ) + (digitsToNat frac : ℚ) / ((10 : ℚ) ^ frac.length)
    let signed := if neg then -base else base
    match r2 with
    | [] => some (.finite signed)
    | e :: r3 =>
      if e = 'e' ∨ e = 'E' then
        let (eneg, r4) :=
          match r3 with
          | '+' :: r => (false, r)
          | '-' :: r => (true, r)
          | _ => (false, r3)
        let (eds, r5) := takeDigitsU allowU r4
        if eds = [] ∨ r5 ≠ [] then none
        else
          let q := if eneg then signed / (10 : ℚ) ^ digitsToNat eds
                   else signed * (10 : ℚ) ^ digitsToNat eds
          some (.finite q)
      else none

/-- The full `float(s)` literal parser (`none` = `ValueError`). -/
def parsePyFloat (allowU : Bool) (s : Str) : Option PyVal :=
  let t := pyStrip s
  let (neg, t') :=
    match t with
    | '+' :: r => (false, r)
    | '-' :: r => (true, r)
    | _ => (false, t)
  let low := pyLower t'
  if low = "inf".data ∨ low = "infinity".data then
    some (if neg then .ninf else .inf)
  else if low = "nan".data then some .nan
  else parseDecimal allowU neg t'

/-- The amount coercion inside `aggregate_amounts_by_owner_and_stage`
(hubspot_weekly_report_dynamic_2026.py, lines 163-167):
```python
try:
    val = float(amount) if amount not in (None, "") else 0.0
except ValueError:
    val = 0.0
```
-/
def aggAmountVal (amount : Option Str) : PyVal :=
  match amount with
  | none => .finite 0
  | some s => if s = [] then .finite 0 else (parsePyFloat true s).getD (.finite 0)

/-- The summary sheet's amount coercion (weekly_product_report.py, line 450):
`pd.to_numeric(df["amount"], errors="coerce").fillna(0.0)` — parse failures
and NaN become exactly 0.0. -/
def toNumericFill0 (amount : Option Str) : PyVal :=
  match amount with
  | none => .finite 0
  | some s =>
    match parsePyFloat false s with
    | none => .finite 0
    | some .nan => .finite 0
    | some v => v

end HubspotAutomations

namespace HubspotAutomations

/-! ## `aggregate_amounts_by_owner_and_stage`
(hubspot_weekly_report_dynamic_2026.py, lines 153-172) -/

/-- The three deal properties the aggregation reads
(`d.get("properties", {}) or {}`; `none` = property absent). -/
structure AggDeal where
  dealstage : Option Str
  amount : Option Str
  hubspot_owner_id : Option Str
  deriving DecidableEq, Repr

/-- One aggregation step: resolve stage label and owner name, coerce the
amount, and accumulate into the nested owner → stage → sum mapping
(`setdefault` then `+=`). -/
def aggStep (owners_map stage_label_map : List (Str × Str))
    (data : List (Str × List (Str × PyVal))) (d : AggDeal) :
    List (Str × List (Str × PyVal)) :=
  let stage_label :=
    match d.dealstage with
    | none => "Unknown stage".data
    | some sid => dictGetD stage_label_map sid "Unknown stage".data
  let val := aggAmountVal d.amount
  let owner_name := dictGetD owners_map (pyStrOfOpt d.hubspot_owner_id) "Unassigned".data
  let inner := dictGetD data owner_name []
  let old := dictGetD inner stage_label (.finite 0)
  dictSet data owner_name (dictSet inner stage_label (pyAdd old val))

/-- `aggregate_amounts_by_owner_and_stage`. -/
def aggregate_amounts_by_owner_and_stage (deals : List AggDeal)
    (owners_map stage_label_map : List (Str × Str)) :
    List (Str × List (Str × PyVal)) :=
  deals.foldl (aggStep owners_map stage_label_map) []

end HubspotAutomations

namespace HubspotAutomations

/-! ## Owner name resolution

`get_all_owners` (hubspot_weekly_report_dynamic_2026.py, lines 70-76) and
`get_owners_map` (weekly_product_report.py, lines 216-227). -/

/-- An owner record from the owners endpoint (`none` = key absent;
HubSpot serialises these fields as strings when present). -/
structure OwnerRec where
  id : Option Str
  firstName : Option Str
  lastName : Option Str
  email : Option Str
  deriving DecidableEq, Repr

/-- The placeholder `f"Owner {owner_id}"` of `get_all_owners`. -/
def ownerPlaceholder (oid : Str) : Str := "Owner ".data ++ oid

/-- `f"{o.get('firstName', '')} {o.get('lastName', '')}".strip()`. -/
def ownerConcatName (o : OwnerRec) : Str :=
  pyStrip (o.firstName.getD [] ++ [' '] ++ o.lastName.getD [])

/-- Name resolution of `get_all_owners`:
`f"{o.get('firstName', '')} {o.get('lastName', '')}".strip() or o.get("email", f"Owner {owner_id}")`.
The placeholder is the *default of the dict lookup*: it is used only when
the `email` key is absent, not when the email is blank. -/
def getAllOwnersName (o : OwnerRec) : Str :=
  let oid := pyStrOfOpt o.id
  pyOr (ownerConcatName o) (o.email.getD (ownerPlaceholder oid))

/-- The `owners_map` built by `get_all_owners` from one page of results. -/
def get_all_owners_fold (results : List OwnerRec) : List (Str × Str) :=
  results.foldl (fun m o => dictSet m (pyStrOfOpt o.id) (getAllOwnersName o)) []

/-- Name resolution of `get_owners_map`:
`name = (f"{first} {last}").strip() or email or oid` with
`first/last/email = (o.get(...) or "").strip()`. -/
def getOwnersMapName (o : OwnerRec) : Str :=
  let oid := o.id.getD []
  let first := pyStrip (o.firstName.getD [])
  let last := pyStrip (o.lastName.getD [])
  let email := pyStrip (o.email.getD [])
  pyOr (pyStrip (first ++ [' '] ++ last)) (pyOr email oid)

/-- The stripped email stored alongside the name by `get_owners_map`. -/
def getOwnersMapEmail (o : OwnerRec) : Str := pyStrip (o.email.getD [])

/-- `get_owners_map`: skip records whose id is falsy
(`oid = str(o.get("id") or ""); if not oid: continue`), else store
`{"name": name, "email": email}`. -/
def get_owners_map (results : List OwnerRec) : List (Str × (Str × Str)) :=
  results.foldl
    (fun m o =>
      let oid := o.id.getD []
      if strTruthy oid then dictSet m oid (getOwnersMapName o, getOwnersMapEmail o)
      else m)
    []

end HubspotAutomations

namespace HubspotAutomations

/-! ## `batch_read_deal_company_primary`
(weekly_product_report.py, lines 230-280), inner per-record resolution. -/

/-- One entry of an association's `associationTypes` list
(`label` may be absent/null, folded to `none`). -/
structure AssocType where
  label : Option Str
  deriving DecidableEq, Repr

/-- One `to` entry of an association record: the (stringified) company id
(`none` = `toObjectId` key absent, so `str(None) = "None"`). -/
structure AssocTo where
  toObjectId : Option Str
  associationTypes : List AssocType
  deriving DecidableEq, Repr

/-- `any((a.get("label") or "").lower() == "primary" for a in assoc_types)`. -/
def assocHasPrimary (t : AssocTo) : Bool :=
  t.associationTypes.any (fun a => pyLower (a.label.getD []) == "primary".data)

/-- The `for t in tos:` scan: thread `fallback_first`
(`if not fallback_first: fallback_first = cid` — only a *truthy* cid
sticks), and `break` with the primary id when a primary label is found. -/
def resolveScan : List AssocTo → Option Str → (Option Str × Option Str)
  | [], fb => (none, fb)
  | t :: rest, fb =>
    let cid := pyStrOfOpt t.toObjectId
    let fb' := match fb with
      | none => some cid
      | some f => if strTruthy f then some f else some cid
    if assocHasPrimary t then (some cid, fb')
    else resolveScan rest fb'

/-- The resolved company id for one deal:
`primary_company_id or fallback_first or ""`. -/
def resolvePrimaryCompany (tos : List AssocTo) : Str :=
  let (primary, fb) := resolveScan tos none
  pyOrO primary (pyOrO fb [])

/-- One association record of the batch-read response (`from.id` and the
`to` list). -/
structure AssocRec where
  fromId : Option Str
  tos : List AssocTo
  deriving DecidableEq, Repr

/-- The `for rec in data.get("results", [])` fold building
`result[deal_id] = primary_company_id or fallback_first or ""`. -/
def batch_read_fold (recs : List AssocRec) (init : List (Str × Str)) :
    List (Str × Str) :=
  recs.foldl (fun m a => dictSet m (pyStrOfOpt a.fromId) (resolvePrimaryCompany a.tos)) init

end HubspotAutomations

namespace HubspotAutomations

/-! ## `ensure_sheet` (hubspot_weekly_report_dynamic_2026.py, lines 184-193)

```python
def ensure_sheet(wb, title):
    safe = title
    for ch in r"\/?*[]:":
        safe = safe.replace(ch, " ")
    safe = safe.strip() or "Unassigned"
    if safe in wb.sheetnames:
        return wb[safe]
    return wb.create_sheet(title=safe[:31])
```
-/

/-- The characters scrubbed from sheet titles: `r"\/?*[]:"`. -/
def sheetBadChars : List Char := ['\\', '/', '?', '*', '[', ']', ':']

/-- The sanitiser: the sequence of single-character `str.replace` calls
(each is a character-wise map), then `strip() or "Unassigned"`. -/
def sanitizeTitle (title : Str) : Str :=
  let replaced :=
    sheetBadChars.foldl (fun s ch => s.map (fun c => if c = ch then ' ' else c)) title
  pyOr (pyStrip replaced) "Unassigned".data

/-- `ensure_sheet`: look the sanitised title up among the sheet names; on a
miss create a sheet under the 31-character truncation of the title.
(openpyxl's rename-on-collision for truncated titles is not modelled; every
property proved stays in the collision-free regime.)  Returns the workbook
and the title of the returned worksheet. -/
def ensure_sheet (wb : Workbook) (title : Str) : Workbook × Str :=
  let safe := sanitizeTitle title
  if listMem (wb.map Prod.fst) safe then (wb, safe)
  else (wb ++ [(safe.take 31, [])], safe.take 31)

end HubspotAutomations

namespace HubspotAutomations

/-! ## `write_snapshot_to_excel`
(hubspot_weekly_report_dynamic_2026.py, lines 196-246) -/

/-- `headers = [ws.cell(row=1, column=c).value for c in range(1, ws.max_column + 1)]`. -/
def headerCells (ws : Sheet) : List Cell :=
  (List.range' 1 (maxCol ws)).map (fun c => getCell ws 1 c)

/-- The `existing_rows` dict: last truthy first-column cell value → its row,
over data rows 2..max_row. -/
def existingRows (ws : Sheet) : List (Val × Nat) :=
  (List.range' 2 (maxRow ws - 1)).foldl
    (fun er r =>
      match getCell ws r 1 with
      | some v => if valTruthy v then dictSet er v r else er
      | none => er)
    []

/-- One step of the stage-row appending loops: append a row for `stage`
unless it is already a key of `existing_rows`. -/
def appendStageStep (st : Sheet × List (Val × Nat) × Nat) (stage : Str) :
    Sheet × List (Val × Nat) × Nat :=
  let (ws, er, nr) := st
  if (dictGet? er (Val.vstr stage)).isSome then (ws, er, nr)
  else (setCell ws nr 1 (.vstr stage), dictSet er (.vstr stage) nr, nr + 1)

/-- `if ws.max_row < 1 or ws["A1"].value != "Stage": ws["A1"] = "Stage"`
(openpyxl's `max_row` is never < 1; the `A1` comparison is the live test). -/
def ensureStageA1 (ws0 : Sheet) : Sheet :=
  if getCell ws0 1 1 ≠ some (Val.vstr "Stage".data) then
    setCell ws0 1 1 (Val.vstr "Stage".data)
  else ws0

/-- The week-column phase: reuse the column whose header equals the label
(`headers.index(week_label) + 1`), else append a new header at
`max_column + 1`.  Returns the sheet and the 1-based column. -/
def findWeekCol (ws1 : Sheet) (week_label : Str) : Sheet × Nat :=
  let headers := headerCells ws1
  if listMem headers (some (.vstr week_label)) then
    (ws1, listIdxOf headers (some (.vstr week_label)) + 1)
  else
    (setCell ws1 1 (maxCol ws1 + 1) (.vstr week_label), maxCol ws1 + 1)

/-- The two stage-row appending loops (default order, then the data's
stages), threading `(sheet, existing_rows, next_row)`. -/
def appendStages (ws2 : Sheet) (er0 : List (Val × Nat)) (next_row : Nat)
    (stages : List Str) : Sheet × List (Val × Nat) × Nat :=
  stages.foldl appendStageStep (ws2, er0, next_row)

/-- The final loop:
`for stage, amount_sum in stage_sums.items(): ws.cell(row=existing_rows[stage], column=week_col, value=amount_sum)`
(the `none` branch is unreachable: the append loop inserted every key). -/
def writeSums (ws3 : Sheet) (er : List (Val × Nat)) (week_col : Nat)
    (stage_sums : List (Str × ℚ)) : Sheet :=
  stage_sums.foldl
    (fun ws p =>
      match dictGet? er (Val.vstr p.1) with
      | some r => setCell ws r week_col (.vnum p.2)
      | none => ws)
    ws3

/-- The per-owner-sheet body of `write_snapshot_to_excel`: ensure `A1`,
find or append the week column, locate/append the stage rows, then write
each stage's sum into the week column. -/
def write_owner_sheet (ws0 : Sheet) (week_label : Str)
    (stage_sums : List (Str × ℚ)) (default_stage_order : List Str) : Sheet :=
  let ws1 := ensureStageA1 ws0
  let p := findWeekCol ws1 week_label
  let er0 := existingRows p.1
  let q := appendStages p.1 er0 (maxRow p.1 + 1)
    (default_stage_order ++ stage_sums.map Prod.fst)
  writeSums q.1 q.2.1 p.2 stage_sums

/-- `write_snapshot_to_excel`: load the workbook (an absent file gives a
fresh workbook whose default sheet is removed), then process each owner of
`data_by_owner` on its `ensure_sheet` worksheet; the result is what
`wb.save` persists. -/
def write_snapshot_to_excel (fs : Option Workbook) (week_label : Str)
    (data_by_owner : List (Str × List (Str × ℚ)))
    (default_stage_order : List Str) : Workbook :=
  let wb := fs.getD []
  data_by_owner.foldl
    (fun wb p =>
      let (wb', name) := ensure_sheet wb p.1
      dictSet wb' name (write_owner_sheet (dictGetD wb' name []) week_label p.2 default_stage_order))
    wb

end HubspotAutomations

namespace HubspotAutomations

/-! ## The run skeleton of `main` (weekly_product_report.py, lines 570-646)

The statement sequence of `main`, as an effect trace.  `create_new_workbook`
(lines 111-126) ends with `wb.save(path)`, which is why the `fileExists =
false` branch contains a save before the final one. -/

/-- The observable steps of `main`, in program order. -/
inductive MainStep where
  | loadEnv            -- load_dotenv(ENV_PATH)
  | checkToken         -- token presence check (raises if absent)
  | mkdirOutputs       -- OUTPUT_DIR.mkdir(exist_ok=True)
  | findProductProperty
  | getProductOptions
  | getPipelines
  | getOwners
  | listAllDeals
  | batchReadAssociations
  | batchReadCompanies
  | buildRowsStep
  | createWorkbook     -- create_new_workbook body (sheet creation)
  | saveWorkbook       -- a wb.save(out_xlsx) call
  | loadWorkbook       -- load_workbook + ensure Summary/product sheets
  | replaceSnapshotRows
  | rewriteSummary
  | printDone
  deriving DecidableEq, Repr

/-- The step trace of one run of `main`, by whether the output file already
exists at the `os.path.exists` check. -/
def main_product_report_steps (fileExists : Bool) : List MainStep :=
  [.loadEnv, .checkToken, .mkdirOutputs, .findProductProperty,
   .getProductOptions, .getPipelines, .getOwners, .listAllDeals,
   .batchReadAssociations, .batchReadCompanies, .buildRowsStep]
  ++ (if fileExists then [.loadWorkbook]
      else [.createWorkbook, .saveWorkbook])
  ++ [.replaceSnapshotRows, .rewriteSummary, .saveWorkbook, .printDone]

/-- Number of workbook saves a prefix of the run has performed: a failure
after `k` steps leaves the on-disk file overwritten iff this is nonzero. -/
def savesInPrefix (fileExists : Bool) (k : Nat) : Nat :=
  ((main_product_report_steps fileExists).take k).count .saveWorkbook

end HubspotAutomations

namespace HubspotAutomations

/-! ## Claim-side definitions

Definitions that follow a claim's words (for comparison against the
code-side definitions above). -/

/-- From claim C8's words: the id of the *first* associated company whose
stringified id is non-empty, `""` when none qualifies (the amendment the
counterexample forces: associations whose id stringifies to the empty
string are skipped by the fallback). -/
def firstTruthyCompanyId (tos : List AssocTo) : Str :=
  match tos.find? (fun t => strTruthy (pyStrOfOpt t.toObjectId)) with
  | some t => pyStrOfOpt t.toObjectId
  | none => []

/-- From claim C6's words: an amount that is absent, empty, or a value no
numeric literal grammar accepts. -/
def isNonNumericAmount : Option Str → Prop
  | none => True
  | some s => s = [] ∨ ∀ allowU : Bool, parsePyFloat allowU s = none

/-- The number of header-row cells holding the given week label (for
claim C2: "exactly one header column bearing that label"). -/
def headerCountL (sh : Sheet) (L : Str) : Nat :=
  (sh.headD []).countP (fun c => decide (c = some (Val.vstr L)))

/-- One step of the `existing_rows` collection loop (proof-side name for
the fold body of `existingRows`). -/
def erStep (ws : Sheet) (er : List (Val × Nat)) (r : Nat) : List (Val × Nat) :=
  match getCell ws r 1 with
  | some v => if valTruthy v then dictSet er v r else er
  | none => er

/-- One owner's step of the `write_snapshot_to_excel` fold (proof-side
name for the fold body). -/
def snapshotStep (L : Str) (order : List Str) (wb : Workbook)
    (p : Str × List (Str × ℚ)) : Workbook :=
  dictSet (ensure_sheet wb p.1).1 (ensure_sheet wb p.1).2
    (write_owner_sheet (dictGetD (ensure_sheet wb p.1).1 (ensure_sheet wb p.1).2 [])
      L p.2 order)

/-- Invariant of the `build_rows` fold (proof-side, for claim C1): every
collected row starts with the snapshot week, carries its deal id in
column 2 with its `(product, deal_id)` key registered in `seen`, and deal
ids are pairwise distinct within each product bucket. -/
def BuildInv (w : Str) (st : BuildState) : Prop :=
  ∀ q rs, (q, rs) ∈ st.1 →
    (∀ r ∈ rs, r.head? = some (some (.vstr w))
        ∧ ∃ did, r.getD 1 none = some (.vstr did) ∧ (q, did) ∈ st.2)
      ∧ rs.Pairwise (fun r1 r2 => r1.getD 1 none ≠ r2.getD 1 none)

end HubspotAutomations

namespace HubspotAutomations

/-! # Theorems -/

/-! ## Shared list and dictionary lemmas -/

/-- Erasing the element sitting right after a prefix removes exactly it. -/
lemma eraseIdx_append_cons {α : Type} (pre : List α) (a : α) (l : List α) :
    (pre ++ a :: l).eraseIdx pre.length = pre ++ l := by
  induction pre with
  | nil => rfl
  | cons x xs ih => simpa [List.eraseIdx] using ih

/-- `dictGet?` after `dictSet`: the set key reads back, others are untouched. -/
lemma dictGet?_dictSet {κ α : Type} [DecidableEq κ] (m : List (κ × α)) (k k' : κ) (v : α) :
    dictGet? (dictSet m k v) k' = if k' = k then some v else dictGet? m k' := by
  induction m with
  | nil =>
    by_cases h : k' = k
    · subst h; simp [dictSet, dictGet?]
    · have h' : ¬ k = k' := fun hh => h hh.symm
      simp [dictSet, dictGet?, h, h']
  | cons p t ih =>
    obtain ⟨k₀, v₀⟩ := p
    by_cases h0 : k₀ = k
    · subst h0
      by_cases h : k' = k₀
      · subst h; simp [dictSet, dictGet?]
      · have h' : ¬ k₀ = k' := fun hh => h hh.symm
        simp [dictSet, dictGet?, h, h']
    · by_cases h1 : k₀ = k'
      · subst h1
        simp [dictSet, dictGet?, h0]
      · simp [dictSet, dictGet?, h0, h1, ih]

/-- A successful `dictGet?` exhibits a member of the association list. -/
lemma dictGet?_mem {κ α : Type} [DecidableEq κ] (m : List (κ × α)) (k : κ) (v : α)
    (h : dictGet? m k = some v) : (k, v) ∈ m := by
  induction m with
  | nil => simp [dictGet?] at h
  | cons p t ih =>
    obtain ⟨k₀, v₀⟩ := p
    by_cases hk : k₀ = k
    · subst hk
      simp [dictGet?] at h
      simp [h]
    · simp [dictGet?, hk] at h
      exact List.mem_cons_of_mem _ (ih h)

/-- `listMem` is membership. -/
lemma listMem_iff {α : Type} [DecidableEq α] (l : List α) (x : α) :
    listMem l x = true ↔ x ∈ l := by
  simp only [listMem, List.any_eq_true, decide_eq_true_eq]
  exact ⟨fun ⟨a, ha, he⟩ => he ▸ ha, fun h => ⟨x, h, rfl⟩⟩

/-- `strTruthy` of a `pyOr` is the disjunction of the truthinesses. -/
lemma strTruthy_pyOr (a b : Str) :
    strTruthy (pyOr a b) = (strTruthy a || strTruthy b) := by
  by_cases h : strTruthy a <;> simp [pyOr, h]

/-! ## `replace_rows_for_snapshot`: deletion-by-index equals filtering -/

/-- Deleting the collected indices in reverse order behaves like filtering
out the marked rows, for any prefix that the index offset accounts for. -/
lemma deleteMarked (snapshot : Str) (l : List Row) :
    ∀ pre : List Row,
      (collectToDelete snapshot (pre.length + 1) l).reverse.foldl
          deleteSheetRow (pre ++ l)
        = pre ++ l.filter (fun r => !matchRow snapshot r) := by
  induction l with
  | nil => intro pre; simp [collectToDelete]
  | cons r rest ih =>
    intro pre
    have ih' := ih (pre ++ [r])
    simp only [List.length_append, List.length_cons, List.length_nil,
      Nat.zero_add, List.append_assoc, List.singleton_append] at ih'
    cases h : matchRow snapshot r with
    | false =>
      have hc : collectToDelete snapshot (pre.length + 1) (r :: rest)
          = collectToDelete snapshot (pre.length + 1 + 1) rest := by
        simp [collectToDelete, h]
      have hf : List.filter (fun r => !matchRow snapshot r) (r :: rest)
          = r :: List.filter (fun r => !matchRow snapshot r) rest := by
        simp [h]
      rw [hc, hf, ih']
    | true =>
      have hc : collectToDelete snapshot (pre.length + 1) (r :: rest)
          = (pre.length + 1) :: collectToDelete snapshot (pre.length + 1 + 1) rest := by
        simp [collectToDelete, h]
      have hf : List.filter (fun r => !matchRow snapshot r) (r :: rest)
          = List.filter (fun r => !matchRow snapshot r) rest := by
        simp [h]
      rw [hc, hf, List.reverse_cons, List.foldl_append, ih']
      simp only [List.foldl_cons, List.foldl_nil, deleteSheetRow,
        Nat.add_sub_cancel]
      exact eraseIdx_append_cons pre r
        (rest.filter (fun r => !matchRow snapshot r))

/-- Characterisation of `replace_rows_for_snapshot`: the header row is kept,
the data rows are filtered by the marking predicate, and the new rows are
appended at the end. -/
theorem replace_rows_eq (ws : Sheet) (rows : List Row) (snapshot : Str) :
    replace_rows_for_snapshot ws rows snapshot
      = ws.take 1 ++ (ws.drop 1).filter (fun r => !matchRow snapshot r)
          ++ rows := by
  cases ws with
  | nil => simp [replace_rows_for_snapshot, collectToDelete]
  | cons h t =>
    have := deleteMarked snapshot t [h]
    simp only [List.length_cons, List.length_nil, List.singleton_append] at this
    simp only [replace_rows_for_snapshot, List.drop_succ_cons, List.drop_zero,
      List.take_succ_cons, List.take_zero, List.singleton_append]
    rw [this]

/-- A marked row has a non-`None`, non-empty-string first cell whose `str`
form is the snapshot key. -/
lemma matchRow_shape (snapshot : Str) (r : Row) (hr : matchRow snapshot r = true) :
    ∃ v : Val, r.head? = some (some v) ∧ v ≠ .vstr [] ∧ pyStr v = snapshot := by
  unfold matchRow at hr
  match hh : r.head? with
  | none => rw [hh] at hr; cases hr
  | some none => rw [hh] at hr; cases hr
  | some (some v) =>
    rw [hh] at hr
    simp only [Bool.and_eq_true, beq_iff_eq] at hr
    refine ⟨v, rfl, ?_, hr.2⟩
    intro hv
    subst hv
    simp [valTruthy, strTruthy] at hr

/-- Claim C10: `replace_rows_for_snapshot` deletes only the data rows whose
first-column value is non-empty and whose string form equals
`snapshot_week_start`, appends the new rows at the end of the sheet, and
leaves every other existing row (including rows whose first cell is empty
or `None`) with its cell values and relative order intact: the result is
exactly the header row, then the surviving data rows in their original
order, then the appended rows. -/
theorem claim_C10_replace_rows_frame (ws : Sheet) (rows : List Row) (snapshot : Str) :
    replace_rows_for_snapshot ws rows snapshot
        = ws.take 1 ++ (ws.drop 1).filter (fun r => !matchRow snapshot r) ++ rows
      ∧ ∀ r : Row, matchRow snapshot r = true →
          ∃ v : Val, r.head? = some (some v) ∧ v ≠ .vstr [] ∧ pyStr v = snapshot :=
  ⟨replace_rows_eq ws rows snapshot, matchRow_shape snapshot⟩

end HubspotAutomations

namespace HubspotAutomations

/-! ## Claim C4: single-save-per-run -/

/-- Claim C4 counterexample: when the output file does not yet exist, the
run of weekly_product_report.py saves the workbook twice — once inside
`create_new_workbook` (line 125) and once at the final `wb.save` (line
644) — refuting "the workbook file on disk is written exactly once per
run, at the final save call". -/
theorem claim_C4_counterexample :
    (main_product_report_steps false).count .saveWorkbook = 2 := by decide

/-- Claim C4 (amended): when the output file already exists, the run saves
the workbook exactly once, at the final save call (step index 14 of 16),
so a failure at any earlier point leaves the previously existing file
byte-identical; when the file does not exist, a skeleton workbook is also
saved mid-run by `create_new_workbook` (step index 12), and the file is
saved again at the end (no previously existing file is at risk in that
branch). -/
theorem claim_C4_amended :
    ((main_product_report_steps true).count .saveWorkbook = 1
        ∧ (main_product_report_steps false).count .saveWorkbook = 2)
      ∧ (∀ k : Nat, k ≤ 14 → savesInPrefix true k = 0)
      ∧ (main_product_report_steps true).getD 14 .printDone = .saveWorkbook
      ∧ savesInPrefix false 13 = 1
      ∧ (main_product_report_steps false).getD 12 .printDone = .saveWorkbook := by
  refine ⟨by decide, ?_, by decide, by decide, by decide⟩
  intro k hk
  interval_cases k <;> decide

/-- Witness for claim C4 (amended): a failure after 10 steps of an
existing-file run has performed no save. -/
theorem claim_C4_amended_witness : savesInPrefix true 10 = 0 :=
  claim_C4_amended.2.1 10 (by decide)

/-! ## Claim C8: association fallback to the first company -/

/-- Claim C8 counterexample: a deal whose two associated companies carry no
"primary" label and whose first association has `toObjectId = ""` is
mapped to `"5"` (the second company), not to the first company's id `""`:
`if not fallback_first` skips falsy ids when latching the fallback. -/
theorem claim_C8_counterexample :
    (([⟨some [], []⟩, ⟨some ['5'], []⟩] : List AssocTo).all
        (fun t => !assocHasPrimary t)) = true
      ∧ (([⟨some [], []⟩, ⟨some ['5'], []⟩] : List AssocTo).map
          (fun t => pyStrOfOpt t.toObjectId)).head? = some []
      ∧ batch_read_fold [⟨some ['d'], [⟨some [], []⟩, ⟨some ['5'], []⟩]⟩] []
          = [(['d'], ['5'])]
      ∧ (['5'] : Str) ≠ ([] : Str) := by decide

/-- An empty string is the only falsy string. -/
lemma strTruthy_eq_false_iff (s : Str) : strTruthy s = false ↔ s = [] := by
  simp [strTruthy, List.isEmpty_iff]

/-- Running the `for t in tos:` scan with a truthy latched fallback and no
primary label returns that fallback. -/
lemma resolve_after_truthy (tos : List AssocTo) :
    ∀ f : Str, strTruthy f = true →
      tos.all (fun t => !assocHasPrimary t) = true →
      pyOrO (resolveScan tos (some f)).1 (pyOrO (resolveScan tos (some f)).2 []) = f := by
  induction tos with
  | nil => intro f hf _; simp [resolveScan, pyOrO, hf]
  | cons t rest ih =>
    intro f hf hall
    simp only [List.all_cons, Bool.and_eq_true, Bool.not_eq_true'] at hall
    simp only [resolveScan, hall.1, hf, if_true, Bool.false_eq_true, if_false]
    exact ih f hf hall.2

/-- Running the scan from a falsy fallback and no primary label yields the
first truthy company id. -/
lemma resolve_from_falsy (tos : List AssocTo) :
    ∀ fb : Option Str, (fb = none ∨ fb = some []) →
      tos.all (fun t => !assocHasPrimary t) = true →
      pyOrO (resolveScan tos fb).1 (pyOrO (resolveScan tos fb).2 [])
        = firstTruthyCompanyId tos := by
  induction tos with
  | nil =>
    intro fb hfb _
    rcases hfb with h | h <;> subst h <;>
      simp [resolveScan, pyOrO, firstTruthyCompanyId, strTruthy]
  | cons t rest ih =>
    intro fb hfb hall
    simp only [List.all_cons, Bool.and_eq_true, Bool.not_eq_true'] at hall
    have hstep : resolveScan (t :: rest) fb
        = resolveScan rest (some (pyStrOfOpt t.toObjectId)) := by
      rcases hfb with h | h <;> subst h <;> simp [resolveScan, hall.1, strTruthy]
    rw [hstep]
    by_cases hc : strTruthy (pyStrOfOpt t.toObjectId) = true
    · rw [resolve_after_truthy rest (pyStrOfOpt t.toObjectId) hc hall.2]
      have hfind : (t :: rest).find? (fun t => strTruthy (pyStrOfOpt t.toObjectId))
          = some t := List.find?_cons_of_pos rest hc
      simp only [firstTruthyCompanyId]
      rw [hfind]
    · have hc' : strTruthy (pyStrOfOpt t.toObjectId) = false := by
        simpa using hc
      have hnil : pyStrOfOpt t.toObjectId = [] := (strTruthy_eq_false_iff _).1 hc'
      rw [ih (some (pyStrOfOpt t.toObjectId)) (Or.inr (by rw [hnil])) hall.2]
      have hfind : (t :: rest).find? (fun t => strTruthy (pyStrOfOpt t.toObjectId))
          = rest.find? (fun t => strTruthy (pyStrOfOpt t.toObjectId)) :=
        List.find?_cons_of_neg rest hc
      simp only [firstTruthyCompanyId]
      rw [hfind]

/-- Claim C8 (amended): for a deal whose company associations carry no
"primary" label (case-insensitively), the resolver maps the deal to the id
of the first associated company whose stringified id is non-empty (an
association whose id stringifies to `""` is skipped by the fallback latch),
or to `""` when no association qualifies. -/
theorem claim_C8_amended (tos : List AssocTo)
    (h : tos.all (fun t => !assocHasPrimary t) = true) :
    resolvePrimaryCompany tos = firstTruthyCompanyId tos
      ∧ ∀ fromId : Option Str,
          batch_read_fold [⟨fromId, tos⟩] []
            = [(pyStrOfOpt fromId, firstTruthyCompanyId tos)] := by
  have hmain : resolvePrimaryCompany tos = firstTruthyCompanyId tos := by
    have := resolve_from_falsy tos none (Or.inl rfl) h
    simpa [resolvePrimaryCompany] using this
  refine ⟨hmain, fun fromId => ?_⟩
  simp [batch_read_fold, dictSet, hmain]

/-- Witness for claim C8 (amended): a single label-free association with a
truthy id resolves to that id. -/
theorem claim_C8_amended_witness :
    resolvePrimaryCompany [⟨some ['7'], []⟩]
        = firstTruthyCompanyId [⟨some ['7'], []⟩]
      ∧ ∀ fromId : Option Str,
          batch_read_fold [⟨fromId, [⟨some ['7'], []⟩]⟩] []
            = [(pyStrOfOpt fromId, firstTruthyCompanyId [⟨some ['7'], []⟩])] :=
  claim_C8_amended [⟨some ['7'], []⟩] (by decide)

end HubspotAutomations

namespace HubspotAutomations

/-! ## Claim C7: owner display-name fallback chain -/

/-- Claim C7 counterexample: an owner record with no name fields and a
*present but blank* email resolves, in `get_all_owners`, to the blank
string — the code falls back to the placeholder only when the `email` key
is absent, so a blank email never reaches the placeholder/sentinel; the
other script's `get_owners_map` resolves the very same record to the
owner id instead. -/
theorem claim_C7_counterexample :
    dictGet? (get_all_owners_fold [⟨some ['7'], none, none, some []⟩]) ['7'] = some []
      ∧ strTruthy ([] : Str) = false
      ∧ ([] : Str) ≠ ownerPlaceholder ['7']
      ∧ get_owners_map [⟨some ['7'], none, none, some []⟩] = [(['7'], (['7'], []))] := by
  decide

/-- A truthy owner id makes the `get_owners_map` display name truthy. -/
lemma getOwnersMapName_truthy (o : OwnerRec) (h : strTruthy (o.id.getD []) = true) :
    strTruthy (getOwnersMapName o) = true := by
  simp [getOwnersMapName, strTruthy_pyOr, h]

/-- Every name stored by `get_owners_map` is non-blank (fold invariant). -/
lemma get_owners_map_names_truthy (results : List OwnerRec) :
    ∀ k v, dictGet? (get_owners_map results) k = some v → strTruthy v.1 = true := by
  have main : ∀ (rs : List OwnerRec) (m : List (Str × (Str × Str))),
      (∀ k v, dictGet? m k = some v → strTruthy v.1 = true) →
      ∀ k v, dictGet? (rs.foldl
          (fun m o =>
            let oid := o.id.getD []
            if strTruthy oid then dictSet m oid (getOwnersMapName o, getOwnersMapEmail o)
            else m) m) k = some v → strTruthy v.1 = true := by
    intro rs
    induction rs with
    | nil => intro m hm; simpa using hm
    | cons o rest ih =>
      intro m hm k v
      simp only [List.foldl_cons]
      by_cases ho : strTruthy (o.id.getD []) = true
      · simp only [ho, if_true]
        refine ih _ ?_ k v
        intro k' v' hv'
        rw [dictGet?_dictSet] at hv'
        by_cases hk : k' = o.id.getD []
        · rw [if_pos hk] at hv'
          cases hv'
          exact getOwnersMapName_truthy o ho
        · rw [if_neg hk] at hv'
          exact hm k' v' hv'
      · simp only [ho, if_false]
        exact ih m hm k v
  intro k v
  exact main results [] (by intro k v h; simp [dictGet?] at h) k v

/-- Claim C7 (amended): name resolution never fails, and the fallback
chains are: in `get_all_owners`, the stripped `first last` concatenation
when non-blank, else the *email value whenever the email key is present*
(even when blank — a blank present email yields a blank display name),
else the placeholder `Owner {id}`; in `get_owners_map`, the concatenation
when non-blank, else the non-blank email, else the owner id, so every name
it stores is non-blank. -/
theorem claim_C7_amended :
    (∀ o : OwnerRec, strTruthy (ownerConcatName o) = true →
        getAllOwnersName o = ownerConcatName o)
      ∧ (∀ o : OwnerRec, strTruthy (ownerConcatName o) = false → o.email = none →
          getAllOwnersName o = ownerPlaceholder (pyStrOfOpt o.id))
      ∧ (∀ (o : OwnerRec) (e : Str), strTruthy (ownerConcatName o) = false →
          o.email = some e → getAllOwnersName o = e)
      ∧ (∀ (results : List OwnerRec) (k : Str) (v : Str × Str),
          dictGet? (get_owners_map results) k = some v → strTruthy v.1 = true) := by
  refine ⟨?_, ?_, ?_, get_owners_map_names_truthy⟩
  · intro o h
    simp [getAllOwnersName, pyOr, h]
  · intro o h he
    simp [getAllOwnersName, pyOr, h, he]
  · intro o e h he
    simp [getAllOwnersName, pyOr, h, he]

/-- Witness for claim C7 (amended): the blank-present-email owner record
resolves to the blank string in `get_all_owners`, and a stored
`get_owners_map` entry is non-blank. -/
theorem claim_C7_amended_witness :
    getAllOwnersName ⟨some ['7'], none, none, some []⟩ = []
      ∧ strTruthy (['7'] : Str) = true :=
  ⟨claim_C7_amended.2.2.1 ⟨some ['7'], none, none, some []⟩ [] (by decide) rfl,
   claim_C7_amended.2.2.2 [⟨some ['7'], none, none, some []⟩] ['7'] (['7'], []) (by decide)⟩

end HubspotAutomations

namespace HubspotAutomations

/-! ## Fetch loop lemmas (for claims C3 and C5) -/

/-- Unfolding `wfChain` at two or more pages. -/
lemma wfChain_cons_cons (p q : Page) (l : List Page) :
    wfChain (p :: q :: l) = (!blankCursor p.next && wfChain (q :: l)) := rfl

/-- One transient (429) step of the `fetch_deals` loop. -/
lemma fetch_go_429_step (tr : List FetchResp) (acc : List Nat) (after : Option Str)
    (attempt : Nat) (sleeps : List Nat) (reqs : List (Option Str)) :
    fetch_deals_go (r429 :: tr) acc after attempt sleeps reqs
      = fetch_deals_go tr acc after (attempt + 1)
          (sleeps ++ [backoffSleep32 (attempt + 1)]) (reqs ++ [after]) := by
  simp [fetch_deals_go, r429]

/-- One successful non-final page step of the `fetch_deals` loop. -/
lemma fetch_go_success_step (p : Page) (tr : List FetchResp) (acc : List Nat)
    (after : Option Str) (attempt : Nat) (sleeps : List Nat)
    (reqs : List (Option Str)) (hnb : blankCursor p.next = false) :
    fetch_deals_go (pageResp p :: tr) acc after attempt sleeps reqs
      = fetch_deals_go tr (acc ++ p.results) p.next 0 sleeps (reqs ++ [after]) := by
  simp [fetch_deals_go, pageResp, hnb]

/-- The final (blank-cursor) page step of the `fetch_deals` loop. -/
lemma fetch_go_final_step (p : Page) (tr : List FetchResp) (acc : List Nat)
    (after : Option Str) (attempt : Nat) (sleeps : List Nat)
    (reqs : List (Option Str)) (hb : blankCursor p.next = true) :
    fetch_deals_go (pageResp p :: tr) acc after attempt sleeps reqs
      = .ok ⟨acc ++ p.results, sleeps, reqs ++ [after]⟩ := by
  simp [fetch_deals_go, pageResp, hb]

/-- Leading 429 responses make `fetch_deals_go` sleep once per response
with the incremented attempt counter and reissue the request with the
*same* cursor, consuming nothing else. -/
lemma fetch_go_retries :
    ∀ (n : Nat) (rest : List FetchResp) (acc : List Nat) (after : Option Str)
      (attempt : Nat) (sleeps : List Nat) (reqs : List (Option Str)),
      fetch_deals_go (List.replicate n r429 ++ rest) acc after attempt sleeps reqs
        = fetch_deals_go rest acc after (attempt + n)
            (sleeps ++ (List.range n).map (fun i => backoffSleep32 (attempt + i + 1)))
            (reqs ++ List.replicate n after) := by
  intro n
  induction n with
  | zero => intro rest acc after attempt sleeps reqs; simp
  | succ n ih =>
    intro rest acc after attempt sleeps reqs
    rw [List.replicate_succ, List.cons_append, fetch_go_429_step, ih]
    have hatt : attempt + 1 + n = attempt + (n + 1) := by omega
    have hsl : (sleeps ++ [backoffSleep32 (attempt + 1)])
          ++ (List.range n).map (fun i => backoffSleep32 (attempt + 1 + i + 1))
        = sleeps ++ (List.range (n + 1)).map (fun i => backoffSleep32 (attempt + i + 1)) := by
      rw [List.range_succ_eq_map, List.map_cons, List.map_map, List.append_assoc,
        List.singleton_append]
      have hpt : ∀ i ∈ List.range n,
          backoffSleep32 (attempt + 1 + i + 1)
            = ((fun i => backoffSleep32 (attempt + i + 1)) ∘ Nat.succ) i := by
        intro i _
        simp only [Function.comp]
        congr 1
        omega
      rw [List.map_congr_left hpt]
    have hrq : (reqs ++ [after]) ++ List.replicate n after
        = reqs ++ List.replicate (n + 1) after := by
      rw [List.append_assoc, List.singleton_append, List.replicate_succ]
    rw [hatt, hsl, hrq]

/-- A well-formed page chain is consumed page by page until the blank
cursor, accumulating all results and logging one request per page. -/
lemma fetch_go_chain :
    ∀ (ps : List Page), wfChain ps = true → ps ≠ [] →
      ∀ (acc : List Nat) (after : Option Str) (attempt : Nat)
        (sleeps : List Nat) (reqs : List (Option Str)),
        fetch_deals_go (ps.map pageResp) acc after attempt sleeps reqs
          = .ok ⟨acc ++ (ps.map Page.results).join, sleeps, reqs ++ chainLog after ps⟩ := by
  intro ps
  induction ps with
  | nil => intro _ hne; exact absurd rfl hne
  | cons p rest ih =>
    intro hwf _ acc after attempt sleeps reqs
    cases rest with
    | nil =>
      have hblank : blankCursor p.next = true := hwf
      rw [List.map_cons, List.map_nil, fetch_go_final_step p [] acc after attempt sleeps reqs hblank]
      simp [chainLog]
    | cons q rest' =>
      rw [wfChain_cons_cons, Bool.and_eq_true] at hwf
      have hnb : blankCursor p.next = false := by
        simpa using hwf.1
      rw [List.map_cons, fetch_go_success_step p _ acc after attempt sleeps reqs hnb,
        ih hwf.2 (by simp) (acc ++ p.results) p.next 0 sleeps (reqs ++ [after])]
      simp [chainLog, List.append_assoc]

/-- Consuming a prefix of pages that all carry a non-blank cursor leaves
the loop at attempt 0 on the last page's cursor, with the prefix's
results accumulated and its requests logged. -/
lemma fetch_go_through :
    ∀ (ps : List Page), ps.all (fun p => !blankCursor p.next) = true →
      ∀ (rest : List FetchResp) (acc : List Nat) (after : Option Str)
        (sleeps : List Nat) (reqs : List (Option Str)),
        fetch_deals_go (ps.map pageResp ++ rest) acc after 0 sleeps reqs
          = fetch_deals_go rest (acc ++ (ps.map Page.results).join) (lastNextD after ps) 0
              sleeps (reqs ++ chainLog after ps) := by
  intro ps
  induction ps with
  | nil => intro _ rest acc after sleeps reqs; simp [lastNextD, chainLog]
  | cons p rest' ih =>
    intro hall rest acc after sleeps reqs
    simp only [List.all_cons, Bool.and_eq_true] at hall
    have hnb : blankCursor p.next = false := by simpa using hall.1
    rw [List.map_cons, List.cons_append,
      fetch_go_success_step p _ acc after 0 sleeps reqs hnb,
      ih hall.2 rest (acc ++ p.results) p.next sleeps (reqs ++ [after])]
    simp [lastNextD, chainLog, List.append_assoc]

/-- Splitting a well-formed chain before a nonempty tail: the prefix pages
all carry non-blank cursors and the tail is itself well formed. -/
lemma wfChain_append (ps₁ ps₂ : List Page) (hne : ps₂ ≠ [])
    (h : wfChain (ps₁ ++ ps₂) = true) :
    ps₁.all (fun p => !blankCursor p.next) = true ∧ wfChain ps₂ = true := by
  induction ps₁ with
  | nil => exact ⟨rfl, h⟩
  | cons p rest ih =>
    obtain ⟨q, l, hql⟩ := List.exists_cons_of_ne_nil
      (show rest ++ ps₂ ≠ [] by
        intro hc
        exact hne (List.append_eq_nil.1 hc).2)
    rw [List.cons_append, hql, wfChain_cons_cons, Bool.and_eq_true] at h
    rw [← hql] at h
    have := ih h.2
    exact ⟨by simp [List.all_cons, h.1, this.1], this.2⟩

/-- One transient (429) step of the `hubspot_request` retry loop. -/
lemma hubspot_go_429_step (rest : List HttpResp) (rem attempt : Nat)
    (last : Option Nat) (sleeps : List Nat) :
    hubspot_request_go (⟨429, 0⟩ :: rest) (rem + 1) attempt last sleeps
      = hubspot_request_go rest rem (attempt + 1) (some 429)
          (sleeps ++ [min (2 ^ attempt) 20]) := by
  simp [hubspot_request_go, retryStatuses, listMem]

/-- The exhausted loop surfaces the last (transient) status. -/
lemma hubspot_go_zero_fail (rs : List HttpResp) (attempt s : Nat) (sleeps : List Nat) :
    hubspot_request_go rs 0 attempt (some s) sleeps = .fail s sleeps := by
  simp [hubspot_request_go]

/-! ## Claim C3: retry policy of the fetchers -/

/-- Claim C3 counterexample: `hubspot_request` gives up after `retries = 5`
attempts — five consecutive 429 responses followed by an available success
still surface the HTTP 429 error (after the five capped backoff sleeps),
refuting the claimed unbounded retry count ("never surfaced if a retry
eventually succeeds"). -/
theorem claim_C3_counterexample :
    hubspot_request (List.replicate 5 ⟨429, 0⟩ ++ [⟨200, 7⟩]) = .fail 429 [1, 2, 4, 8, 16] := by
  decide

/-- Claim C3 (amended): in `hubspot_request`, a status in
{429, 500, 502, 503, 504} is retried after sleeping `min(2**attempt, 20)`
seconds, but only for 5 attempts in total — fewer than five leading
transients followed by a success return that success with one sleep per
transient, while five transients surface the last transient error; any
other status in 400..599 fails immediately with no sleep.  In the dynamic
script's `fetch_deals`, any number of 429/5xx responses is retried
(sleeping `min(2**attempt, 32)`) without advancing the pagination cursor,
and the fetch then completes the whole page chain. -/
theorem claim_C3_amended :
    (∀ (n : Nat), n < 5 → ∀ (b : Nat) (rest : List HttpResp),
        hubspot_request (List.replicate n ⟨429, 0⟩ ++ ⟨200, b⟩ :: rest)
          = .ok b ((List.range n).map (fun i => min (2 ^ i) 20)))
      ∧ (∀ rs : List HttpResp,
          hubspot_request (List.replicate 5 ⟨429, 0⟩ ++ rs) = .fail 429 [1, 2, 4, 8, 16])
      ∧ (∀ (s b : Nat) (rest : List HttpResp), 400 ≤ s → s < 600 →
          listMem retryStatuses s = false →
          hubspot_request (⟨s, b⟩ :: rest) = .fail s [])
      ∧ (∀ (n : Nat) (ps : List Page), wfChain ps = true → ps ≠ [] →
          fetch_deals (List.replicate n r429 ++ ps.map pageResp)
            = .ok ⟨(ps.map Page.results).join,
                   (List.range n).map (fun i => backoffSleep32 (i + 1)),
                   List.replicate n none ++ chainLog none ps⟩) := by
  refine ⟨?_, ?_, ?_, ?_⟩
  · intro n hn b rest
    interval_cases n <;> rfl
  · intro rs
    show hubspot_request_go (List.replicate 5 ⟨429, 0⟩ ++ rs) 5 0 none [] = _
    rw [show (List.replicate 5 (⟨429, 0⟩ : HttpResp) ++ rs)
          = ⟨429, 0⟩ :: ⟨429, 0⟩ :: ⟨429, 0⟩ :: ⟨429, 0⟩ :: ⟨429, 0⟩ :: rs by rfl]
    rw [hubspot_go_429_step _ 4, hubspot_go_429_step _ 3, hubspot_go_429_step _ 2,
      hubspot_go_429_step _ 1, hubspot_go_429_step _ 0, hubspot_go_zero_fail]
    norm_num
  · intro s b rest h1 h2 h3
    show hubspot_request_go (⟨s, b⟩ :: rest) 5 0 none [] = .fail s []
    have : hubspot_request_go (⟨s, b⟩ :: rest) (4 + 1) 0 none [] = .fail s [] := by
      simp [hubspot_request_go, h3, h1, h2]
    exact this
  · intro n ps hwf hne
    show fetch_deals_go (List.replicate n r429 ++ ps.map pageResp) [] none 0 [] [] = _
    rw [fetch_go_retries n (ps.map pageResp) [] none 0 [] []]
    rw [fetch_go_chain ps hwf hne]
    simp

/-- Witness for claim C3 (amended): two transients then a success for
`hubspot_request`; one transient then a single blank-cursor page for
`fetch_deals`. -/
theorem claim_C3_amended_witness :
    hubspot_request (List.replicate 2 ⟨429, 0⟩ ++ ⟨200, 7⟩ :: [])
        = .ok 7 ((List.range 2).map (fun i => min (2 ^ i) 20))
      ∧ fetch_deals (List.replicate 1 r429 ++ [⟨[9], none⟩].map pageResp)
          = .ok ⟨([⟨[9], none⟩].map Page.results).join,
                 (List.range 1).map (fun i => backoffSleep32 (i + 1)),
                 List.replicate 1 none ++ chainLog none [⟨[9], none⟩]⟩ :=
  ⟨claim_C3_amended.1 2 (by decide) 7 [],
   claim_C3_amended.2.2.2 1 [⟨[9], none⟩] (by decide) (by decide)⟩

/-! ## Claim C5: two 429s then 200 -/

/-- Claim C5: if some page request of the paginated fetch receives HTTP 429
twice and every other request succeeds, `fetch_deals` returns the full
concatenated result set of all pages, performs exactly the two backoff
sleeps (2 s then 4 s), raises no error, and reissues the throttled request
with the unchanged cursor; `hubspot_request` (used by the other script's
paginated fetch) likewise absorbs two 429s with sleeps of 1 s and 2 s and
returns the page body. -/
theorem claim_C5_retry_then_success :
    (∀ (ps₁ ps₂ : List Page), wfChain (ps₁ ++ ps₂) = true → ps₂ ≠ [] →
        fetch_deals (ps₁.map pageResp ++ [r429, r429] ++ ps₂.map pageResp)
          = .ok ⟨((ps₁ ++ ps₂).map Page.results).join, [2, 4],
                 chainLog none ps₁
                   ++ [lastNextD none ps₁, lastNextD none ps₁]
                   ++ chainLog (lastNextD none ps₁) ps₂⟩)
      ∧ (∀ (b : Nat) (rest : List HttpResp),
          hubspot_request (⟨429, 0⟩ :: ⟨429, 0⟩ :: ⟨200, b⟩ :: rest) = .ok b [1, 2]) := by
  constructor
  · intro ps₁ ps₂ hwf hne
    obtain ⟨hall, hwf₂⟩ := wfChain_append ps₁ ps₂ hne hwf
    show fetch_deals_go (ps₁.map pageResp ++ [r429, r429] ++ ps₂.map pageResp)
        [] none 0 [] [] = _
    rw [List.append_assoc]
    rw [fetch_go_through ps₁ hall ([r429, r429] ++ ps₂.map pageResp) [] none [] []]
    rw [show ([r429, r429] : List FetchResp) = List.replicate 2 r429 from rfl]
    rw [fetch_go_retries 2 (ps₂.map pageResp) _ _ 0 _ _]
    rw [fetch_go_chain ps₂ hwf₂ hne]
    simp [List.join_append, backoffSleep32, List.range_succ, List.append_assoc]
  · intro b rest; rfl

/-- Witness for claim C5: a two-page chain whose second page's request is
throttled twice, and a concrete `hubspot_request` transcript. -/
theorem claim_C5_witness :
    fetch_deals (([⟨[1], some ['a']⟩] : List Page).map pageResp ++ [r429, r429]
          ++ (([⟨[2], none⟩] : List Page)).map pageResp)
        = .ok ⟨((([⟨[1], some ['a']⟩] : List Page) ++ ([⟨[2], none⟩] : List Page)).map
                  Page.results).join,
               [2, 4],
               chainLog none ([⟨[1], some ['a']⟩] : List Page)
                 ++ [lastNextD none ([⟨[1], some ['a']⟩] : List Page),
                     lastNextD none ([⟨[1], some ['a']⟩] : List Page)]
                 ++ chainLog (lastNextD none ([⟨[1], some ['a']⟩] : List Page))
                     ([⟨[2], none⟩] : List Page)⟩
      ∧ hubspot_request [⟨429, 0⟩, ⟨429, 0⟩, ⟨200, 7⟩] = .ok 7 [1, 2] :=
  ⟨claim_C5_retry_then_success.1 [⟨[1], some ['a']⟩] [⟨[2], none⟩] (by decide) (by decide),
   claim_C5_retry_then_success.2 7 []⟩

end HubspotAutomations

namespace HubspotAutomations

/-! ## Claim C6: zero-coercion of bad amounts -/

/-- `float("0")` parses to exactly 0. -/
lemma parse_zero_literal : ∀ allowU : Bool, parsePyFloat allowU ['0'] = some (.finite 0) := by
  intro allowU
  have h : parsePyFloat allowU ['0']
      = some (.finite (((0 : ℕ) : ℚ) + ((0 : ℕ) : ℚ) / (10 : ℚ) ^ (0 : ℕ))) := by
    cases allowU <;> rfl
  rw [h]
  norm_num

/-- The aggregation step depends on the amount only through `aggAmountVal`. -/
lemma aggStep_amount_congr (owners stages : List (Str × Str))
    (data : List (Str × List (Str × PyVal))) (d d' : AggDeal)
    (h1 : d.dealstage = d'.dealstage) (h2 : d.hubspot_owner_id = d'.hubspot_owner_id)
    (h3 : aggAmountVal d.amount = aggAmountVal d'.amount) :
    aggStep owners stages data d = aggStep owners stages data d' := by
  simp [aggStep, h1, h2, h3]

/-- Claim C6: a deal amount that is absent, empty, or non-numeric
contributes exactly 0.0: the aggregation's coercion yields 0.0 (so the
deal's bucket receives `+ 0.0`, equivalently the run behaves as if the
amount were `"0"`), the summary sheet's `to_numeric(...).fillna(0.0)`
coercion yields 0.0 as well, and neither coercion can raise (both are
total functions; the `ValueError` of `float` is caught and mapped to 0.0). -/
theorem claim_C6_zero_amounts (a : Option Str) (h : isNonNumericAmount a) :
    aggAmountVal a = .finite 0
      ∧ toNumericFill0 a = .finite 0
      ∧ ∀ (ds₁ ds₂ : List AggDeal) (d : AggDeal) (owners stages : List (Str × Str)),
          d.amount = a →
          aggregate_amounts_by_owner_and_stage (ds₁ ++ d :: ds₂) owners stages
            = aggregate_amounts_by_owner_and_stage
                (ds₁ ++ { d with amount := some ['0'] } :: ds₂) owners stages := by
  have hval : aggAmountVal a = .finite 0 := by
    match a, h with
    | none, _ => rfl
    | some s, h =>
      rcases h with h | h
      · subst h; rfl
      · by_cases hs : s = []
        · subst hs; rfl
        · simp [aggAmountVal, hs, h true]
  have hnum : toNumericFill0 a = .finite 0 := by
    match a, h with
    | none, _ => rfl
    | some s, h =>
      rcases h with h | h
      · subst h; rfl
      · simp [toNumericFill0, h false]
  refine ⟨hval, hnum, ?_⟩
  intro ds₁ ds₂ d owners stages hd
  unfold aggregate_amounts_by_owner_and_stage
  rw [List.foldl_append, List.foldl_append, List.foldl_cons, List.foldl_cons]
  congr 1
  refine aggStep_amount_congr owners stages _ d _ rfl rfl ?_
  rw [hd, hval]
  simp [aggAmountVal, parse_zero_literal true]

/-- Witness for claim C6: the non-numeric amount `"abc"`. -/
theorem claim_C6_zero_amounts_witness :
    aggAmountVal (some "abc".data) = .finite 0
      ∧ toNumericFill0 (some "abc".data) = .finite 0
      ∧ aggregate_amounts_by_owner_and_stage
            [⟨some "s".data, some "abc".data, some "o".data⟩] [] []
          = aggregate_amounts_by_owner_and_stage
              [⟨some "s".data, some ['0'], some "o".data⟩] [] [] :=
  have h := claim_C6_zero_amounts (some "abc".data)
    (Or.inr (by intro allowU; cases allowU <;> rfl))
  ⟨h.1, h.2.1,
    h.2.2 [] [] ⟨some "s".data, some "abc".data, some "o".data⟩ [] [] rfl⟩

end HubspotAutomations

namespace HubspotAutomations

/-! ## Claim C9: `ensure_sheet` sanitisation and idempotence -/

/-- The seven sequential single-character `replace` calls equal one
character-wise replacement of the scrubbed characters by a space. -/
lemma sanitizeTitle_eq_map (t : Str) :
    sanitizeTitle t
      = pyOr (pyStrip (t.map (fun c => if listMem sheetBadChars c then ' ' else c)))
          "Unassigned".data := by
  unfold sanitizeTitle
  have hrep :
      sheetBadChars.foldl (fun s ch => s.map (fun c => if c = ch then ' ' else c)) t
        = t.map (fun c => if listMem sheetBadChars c then ' ' else c) := by
    simp only [sheetBadChars, List.foldl_cons, List.foldl_nil, List.map_map]
    refine List.map_congr_left ?_
    intro c _
    by_cases hc : listMem sheetBadChars c = true
    · have hmem : c ∈ sheetBadChars := (listMem_iff _ _).1 hc
      fin_cases hmem <;> decide
    · have hnm : c ∉ sheetBadChars := fun hm => hc ((listMem_iff _ _).2 hm)
      simp only [sheetBadChars, List.mem_cons, List.not_mem_nil, or_false, not_or] at hnm
      obtain ⟨h1, h2, h3, h4, h5, h6, h7⟩ := hnm
      have hc' : listMem sheetBadChars c = false := by
        simpa using hc
      have hc2 : listMem ['\\', '/', '?', '*', '[', ']', ':'] c = false := hc'
      simp [Function.comp, h1, h2, h3, h4, h5, h6, h7, hc2]
  rw [hrep]

/-- Claim C9: `ensure_sheet` replaces each of `\ / ? * [ ] :` in the
requested title by a space (character-wise), maps a title whose sanitised
form strips to the empty string to `"Unassigned"`, and — for every title
whose sanitised form has at most 31 characters — is idempotent: a second
call with the same title finds the sheet created by the first call (the
31-character truncation only happens at creation, and under the length
bound it is the identity, so the created title is found by the lookup). -/
theorem claim_C9_ensure_sheet (wb : Workbook) (t : Str)
    (h31 : (sanitizeTitle t).length ≤ 31) :
    sanitizeTitle t
        = pyOr (pyStrip (t.map (fun c => if listMem sheetBadChars c then ' ' else c)))
            "Unassigned".data
      ∧ (pyStrip (t.map (fun c => if listMem sheetBadChars c then ' ' else c)) = [] →
          sanitizeTitle t = "Unassigned".data)
      ∧ ensure_sheet (ensure_sheet wb t).1 t = ensure_sheet wb t := by
  refine ⟨sanitizeTitle_eq_map t, ?_, ?_⟩
  · intro hnil
    rw [sanitizeTitle_eq_map t, hnil]
    simp [pyOr, strTruthy]
  · have htake : (sanitizeTitle t).take 31 = sanitizeTitle t :=
      List.take_of_length_le h31
    by_cases hmem : listMem (wb.map Prod.fst) (sanitizeTitle t) = true
    · simp [ensure_sheet, hmem]
    · have hmem' : listMem (wb.map Prod.fst) (sanitizeTitle t) = false := by
        simpa using hmem
      have hfound :
          listMem ((wb.map Prod.fst) ++ [sanitizeTitle t]) (sanitizeTitle t) = true :=
        (listMem_iff _ _).2 (by simp)
      simp [ensure_sheet, hmem', htake, hfound]

/-- Witness for claim C9: the title `"a/b"` on an empty workbook. -/
theorem claim_C9_ensure_sheet_witness :
    sanitizeTitle "a/b".data
        = pyOr (pyStrip ("a/b".data.map (fun c => if listMem sheetBadChars c then ' ' else c)))
            "Unassigned".data
      ∧ (pyStrip ("a/b".data.map (fun c => if listMem sheetBadChars c then ' ' else c)) = [] →
          sanitizeTitle "a/b".data = "Unassigned".data)
      ∧ ensure_sheet (ensure_sheet [] "a/b".data).1 "a/b".data
          = ensure_sheet [] "a/b".data :=
  claim_C9_ensure_sheet [] "a/b".data (by decide)

end HubspotAutomations

namespace HubspotAutomations

/-! ## Claim C1: idempotent product-sheet snapshot merge -/

/-- A non-empty string is truthy. -/
lemma strTruthy_of_ne {s : Str} (h : s ≠ []) : strTruthy s = true := by
  simp [strTruthy, List.isEmpty_iff, h]

/-- `setCell` at row 1 leaves the data rows untouched. -/
lemma setCell_one_drop (ws : Sheet) (c : Nat) (v : Val) :
    (setCell ws 1 c v).drop 1 = ws.drop 1 := by
  cases ws with
  | nil => rfl
  | cons h t =>
    have hz : 1 - (t.length + 1) = 0 := by omega
    simp [setCell, padRows, hz]

/-- `setCell` at row 1 yields a non-empty sheet. -/
lemma setCell_one_ne_nil (ws : Sheet) (c : Nat) (v : Val) :
    setCell ws 1 c v ≠ [] := by
  cases ws with
  | nil => simp [setCell, padRows]
  | cons h t =>
    have hz : 1 - (t.length + 1) = 0 := by omega
    simp [setCell, padRows, hz]

/-- `ensure_sheet_headers` only writes row 1. -/
lemma ensure_sheet_headers_drop (ws : Sheet) :
    (ensure_sheet_headers ws).drop 1 = ws.drop 1 := by
  unfold ensure_sheet_headers
  generalize List.range SHEET_HEADERS.length = l
  induction l generalizing ws with
  | nil => rfl
  | cons i t ih =>
    rw [List.foldl_cons, ih, setCell_one_drop]

/-- `ensure_sheet_headers` never returns an empty sheet. -/
lemma ensure_sheet_headers_ne_nil (ws : Sheet) : ensure_sheet_headers ws ≠ [] := by
  unfold ensure_sheet_headers
  have main : ∀ (l : List Nat) (ws : Sheet), (ws ≠ [] ∨ l ≠ []) →
      l.foldl (fun ws i => setCell ws 1 (i + 1) (.vstr (SHEET_HEADERS.getD i []))) ws ≠ [] := by
    intro l
    induction l with
    | nil =>
      intro ws h
      rcases h with h | h
      · simpa using h
      · exact absurd rfl h
    | cons i t ih =>
      intro ws _
      rw [List.foldl_cons]
      exact ih _ (Or.inl (setCell_one_ne_nil ws (i + 1) _))
  refine main _ ws (Or.inr ?_)
  rw [Ne, List.range_eq_nil]
  decide

/-- Dropping the single kept header row of an append. -/
lemma take_one_append_drop {X Y : List Row} (h : X ≠ []) :
    (X.take 1 ++ Y).drop 1 = Y := by
  cases X with
  | nil => exact absurd rfl h
  | cons a t => rfl

/-- Data-row characterisation of one product-sheet write of `main`
(headers ensured, then rows for the week replaced). -/
lemma product_sheet_run_drop (ws : Sheet) (rows : List Row) (w : Str) :
    (product_sheet_run ws rows w).drop 1
      = (ws.drop 1).filter (fun r => !matchRow w r) ++ rows := by
  unfold product_sheet_run
  rw [replace_rows_eq, List.append_assoc,
    take_one_append_drop (ensure_sheet_headers_ne_nil ws), ensure_sheet_headers_drop]

/-- A row can match at most one snapshot key. -/
lemma matchRow_inj (w w' : Str) (r : Row) (h : matchRow w r = true)
    (h' : matchRow w' r = true) : w = w' := by
  obtain ⟨v, hv, -, hs⟩ := matchRow_shape w r h
  obtain ⟨v', hv', -, hs'⟩ := matchRow_shape w' r h'
  rw [hv] at hv'
  have hvv : v = v' := by simpa using hv'
  rw [← hs, ← hs', hvv]

/-- Membership after a Python dict assignment. -/
lemma dictSet_mem {κ α : Type} [DecidableEq κ] (m : List (κ × α)) (k : κ) (v : α) :
    ∀ x ∈ dictSet m k v, x ∈ m ∨ x = (k, v) := by
  induction m with
  | nil => intro x hx; simp [dictSet] at hx; exact Or.inr hx
  | cons p t ih =>
    obtain ⟨k₀, v₀⟩ := p
    intro x hx
    by_cases h : k₀ = k
    · subst h
      simp only [dictSet, if_pos rfl] at hx
      rcases List.mem_cons.1 hx with hx | hx
      · exact Or.inr hx
      · exact Or.inl (List.mem_cons_of_mem _ hx)
    · simp only [dictSet, if_neg h] at hx
      rcases List.mem_cons.1 hx with hx | hx
      · exact Or.inl (by rw [hx]; exact List.mem_cons_self _ _)
      · rcases ih x hx with h1 | h1
        · exact Or.inl (List.mem_cons_of_mem _ h1)
        · exact Or.inr h1

/-- Membership after appending a row to a product bucket. -/
lemma dictAppendRow_mem (m : List (Str × List Row)) (k : Str) (row : Row) :
    ∀ q rs, (q, rs) ∈ dictAppendRow m k row →
      (q, rs) ∈ m ∨ (q = k ∧ ∃ rs₀, (k, rs₀) ∈ m ∧ rs = rs₀ ++ [row]) := by
  induction m with
  | nil => intro q rs h; simp [dictAppendRow] at h
  | cons p t ih =>
    obtain ⟨k₀, v₀⟩ := p
    intro q rs h
    by_cases hk : k₀ = k
    · subst hk
      simp only [dictAppendRow, if_pos rfl] at h
      rcases List.mem_cons.1 h with h | h
      · rw [Prod.mk.injEq] at h
        exact Or.inr ⟨h.1, v₀, List.mem_cons_self _ _, h.2⟩
      · exact Or.inl (List.mem_cons_of_mem _ h)
    · simp only [dictAppendRow, if_neg hk] at h
      rcases List.mem_cons.1 h with h | h
      · exact Or.inl (by rw [h]; exact List.mem_cons_self _ _)
      · rcases ih q rs h with h1 | ⟨hq, rs₀, hm, hrs⟩
        · exact Or.inl (List.mem_cons_of_mem _ h1)
        · exact Or.inr ⟨hq, rs₀, List.mem_cons_of_mem _ hm, hrs⟩

/-- The first cell of a `build_rows` row is the snapshot week. -/
lemma buildRow_head (w : Str) (d : DealRec) (sp : Str)
    (pl sl d2c c2n : List (Str × Str)) (om : List (Str × (Str × Str))) :
    (buildRow w d sp pl sl d2c c2n om).head? = some (some (.vstr w)) := rfl

/-- The second cell of a `build_rows` row is the stringified deal id. -/
lemma buildRow_key (w : Str) (d : DealRec) (sp : Str)
    (pl sl d2c c2n : List (Str × Str)) (om : List (Str × (Str × Str))) :
    (buildRow w d sp pl sl d2c c2n om).getD 1 none
      = some (.vstr (pyStrOfOpt d.id)) := rfl

/-- One inner-loop step of `build_rows` preserves the invariant. -/
lemma buildRowsInner_inv (w : Str) (want pl sl d2c c2n : List (Str × Str))
    (om : List (Str × (Str × Str))) (d : DealRec) :
    ∀ (st : BuildState) (plabel : Str), BuildInv w st →
      BuildInv w (buildRowsInner w want pl sl d2c c2n om d st plabel) := by
  intro st plabel hinv
  simp only [buildRowsInner]
  split
  · exact hinv
  · rename_i sp hlook
    split
    · exact hinv
    · rename_i hseen
      have hseen' : listMem st.2 (sp, pyStrOfOpt d.id) = false := by
        simpa using hseen
      intro q rs hmem
      simp only at hmem
      rcases dictAppendRow_mem st.1 sp _ q rs hmem with hold | ⟨hq, rs₀, hm₀, hrs⟩
      · obtain ⟨hrows, hpw⟩ := hinv q rs hold
        refine ⟨?_, hpw⟩
        intro r hr
        obtain ⟨hh, did, hk, hsn⟩ := hrows r hr
        exact ⟨hh, did, hk, List.mem_cons_of_mem _ hsn⟩
      · subst hq
        subst hrs
        obtain ⟨hrows₀, hpw₀⟩ := hinv q rs₀ hm₀
        constructor
        · intro r hr
          rcases List.mem_append.1 hr with hr | hr
          · obtain ⟨hh, did, hk, hsn⟩ := hrows₀ r hr
            exact ⟨hh, did, hk, List.mem_cons_of_mem _ hsn⟩
          · have hr' : r = buildRow w d q pl sl d2c c2n om := by simpa using hr
            subst hr'
            exact ⟨buildRow_head w d q pl sl d2c c2n om,
              pyStrOfOpt d.id, buildRow_key w d q pl sl d2c c2n om,
              List.mem_cons_self _ _⟩
        · rw [List.pairwise_append]
          refine ⟨hpw₀, List.pairwise_singleton _ _, ?_⟩
          intro r hr r' hr'
          have hr'' : r' = buildRow w d q pl sl d2c c2n om := by simpa using hr'
          subst hr''
          obtain ⟨-, did, hk, hsn⟩ := hrows₀ r hr
          rw [hk, buildRow_key]
          intro hEq
          have hdid : did = pyStrOfOpt d.id := by simpa using hEq
          subst hdid
          exact absurd ((listMem_iff _ _).2 hsn) (by simp [hseen'])

/-- A `BuildState` predicate survives a fold whose step preserves it. -/
lemma foldl_inv {β : Type} (P : BuildState → Prop) (f : BuildState → β → BuildState)
    (hf : ∀ st b, P st → P (f st b)) :
    ∀ (l : List β) (st : BuildState), P st → P (l.foldl f st) := by
  intro l
  induction l with
  | nil => intro st h; exact h
  | cons b t ih => intro st h; exact ih _ (hf st b h)

/-- Every bucket of the seeded `rows_by_product` dict is empty. -/
lemma build_init_empty (products : List Str) :
    ∀ x ∈ products.foldl (fun m p => dictSet m p ([] : List Row)) [], x.2 = [] := by
  have main : ∀ (ps : List Str) (m : List (Str × List Row)),
      (∀ x ∈ m, x.2 = []) → ∀ x ∈ ps.foldl (fun m p => dictSet m p []) m, x.2 = [] := by
    intro ps
    induction ps with
    | nil => intro m hm; exact hm
    | cons p t ih =>
      intro m hm
      refine ih _ ?_
      intro x hx
      rcases dictSet_mem m p [] x hx with h | h
      · exact hm x h
      · rw [h]
  exact main products [] (by intro x hx; simp at hx)

/-- The rows `build_rows` collects for a product all start with the
snapshot week and have pairwise distinct deal ids. -/
lemma build_rows_facts (deals : List DealRec) (w : Str)
    (opt_map pl sl : List (Str × Str)) (products : List Str)
    (d2c c2n : List (Str × Str)) (om : List (Str × (Str × Str))) (p : Str) :
    (∀ r ∈ dictGetD (build_rows deals w opt_map pl sl products d2c c2n om) p [],
        r.head? = some (some (.vstr w)))
      ∧ (dictGetD (build_rows deals w opt_map pl sl products d2c c2n om) p []).Pairwise
          (fun r1 r2 => r1.getD 1 none ≠ r2.getD 1 none) := by
  have hinv : BuildInv w
      (deals.foldl
        (fun st d =>
          ((split_multicheckbox d.productRaw).map (fun v => dictGetD opt_map v v)).foldl
            (buildRowsInner w
              (products.foldl (fun wnt q => dictSet wnt (pyLower q) q) [])
              pl sl d2c c2n om d) st)
        (products.foldl (fun m q => dictSet m q []) [], [])) := by
    refine foldl_inv (BuildInv w) _ ?_ deals _ ?_
    · intro st d hst
      exact foldl_inv (BuildInv w) _
        (fun st' plabel h =>
          buildRowsInner_inv w _ pl sl d2c c2n om d st' plabel h) _ st hst
    · intro q' rs' hmem'
      have hempty := build_init_empty products (q', rs') hmem'
      simp only at hempty
      subst hempty
      exact ⟨by intro r hr; simp at hr, List.Pairwise.nil⟩
  unfold dictGetD
  cases hg : dictGet? (build_rows deals w opt_map pl sl products d2c c2n om) p with
  | none => exact ⟨by intro r hr; simp at hr, by simp⟩
  | some rs =>
    have hmem : (p, rs) ∈ build_rows deals w opt_map pl sl products d2c c2n om :=
      dictGet?_mem _ _ _ hg
    have hmem' : (p, rs)
        ∈ (deals.foldl
            (fun st d =>
              ((split_multicheckbox d.productRaw).map (fun v => dictGetD opt_map v v)).foldl
                (buildRowsInner w
                  (products.foldl (fun wnt q => dictSet wnt (pyLower q) q) [])
                  pl sl d2c c2n om d) st)
            (products.foldl (fun m q => dictSet m q []) [], [])).1 := hmem
    obtain ⟨h1, h2⟩ := hinv p rs hmem'
    exact ⟨by intro r hr; exact (h1 r hr).1, h2⟩

end HubspotAutomations

namespace HubspotAutomations

/-- Claim C1: running `build_rows` followed by the product-sheet write
(`ensure_sheet_headers` + `replace_rows_for_snapshot`) twice with the same
non-empty `snapshot_week_start` leaves each product sheet's data rows
exactly as after the first run; the sheet's rows for that week are exactly
the second run's rows; no two of those rows share a deal id (hence no two
share the `(product, deal_id)` key on a fixed product sheet); and the rows
of every other snapshot week are the original sheet's, unchanged and in
order. -/
theorem claim_C1_snapshot_merge_idempotent
    (deals : List DealRec) (w : Str) (hw : w ≠ [])
    (opt_map pipeline_label stage_label : List (Str × Str))
    (products_interest : List Str)
    (deal_to_company_id company_id_to_name : List (Str × Str))
    (owners_map : List (Str × (Str × Str))) (p : Str) (ws : Sheet)
    (rows : List Row)
    (hrows : rows = dictGetD
        (build_rows deals w opt_map pipeline_label stage_label products_interest
          deal_to_company_id company_id_to_name owners_map) p []) :
    (product_sheet_run (product_sheet_run ws rows w) rows w).drop 1
        = (product_sheet_run ws rows w).drop 1
      ∧ ((product_sheet_run (product_sheet_run ws rows w) rows w).drop 1).filter (matchRow w)
          = rows
      ∧ rows.Pairwise (fun r1 r2 => r1.getD 1 none ≠ r2.getD 1 none)
      ∧ ∀ w' : Str, w' ≠ w →
          ((product_sheet_run (product_sheet_run ws rows w) rows w).drop 1).filter
              (matchRow w')
            = (ws.drop 1).filter (matchRow w') := by
  obtain ⟨hhead, hpair⟩ :=
    hrows ▸ build_rows_facts deals w opt_map pipeline_label stage_label
      products_interest deal_to_company_id company_id_to_name owners_map p
  have hmatch : ∀ r ∈ rows, matchRow w r = true := by
    intro r hr
    unfold matchRow
    rw [hhead r hr]
    simp [valTruthy, pyStr, strTruthy_of_ne hw]
  have hmatch' : ∀ w' : Str, w' ≠ w → ∀ r ∈ rows, matchRow w' r = false := by
    intro w' hne r hr
    by_contra hc
    exact hne (matchRow_inj w' w r (by simpa using hc) (hmatch r hr))
  have h1 : (product_sheet_run ws rows w).drop 1
      = (ws.drop 1).filter (fun r => !matchRow w r) ++ rows :=
    product_sheet_run_drop ws rows w
  have hKK : ((ws.drop 1).filter (fun r => !matchRow w r)).filter (fun r => !matchRow w r)
      = (ws.drop 1).filter (fun r => !matchRow w r) := by
    rw [List.filter_filter]
    simp only [Bool.and_self]
  have hrows_nil : rows.filter (fun r => !matchRow w r) = [] := by
    rw [List.filter_eq_nil_iff]
    intro r hr
    simp [hmatch r hr]
  have h2 : (product_sheet_run (product_sheet_run ws rows w) rows w).drop 1
      = (ws.drop 1).filter (fun r => !matchRow w r) ++ rows := by
    rw [product_sheet_run_drop, h1, List.filter_append, hKK, hrows_nil, List.append_nil]
  refine ⟨h2.trans h1.symm, ?_, hrows ▸ hpair, ?_⟩
  · rw [h2, List.filter_append]
    have hKnil : ((ws.drop 1).filter (fun r => !matchRow w r)).filter (matchRow w) = [] := by
      rw [List.filter_filter]
      have : ∀ r : Row, (matchRow w r && !matchRow w r) = false := by
        intro r; cases matchRow w r <;> rfl
      simp [this]
    have hself : rows.filter (matchRow w) = rows := by
      rw [List.filter_eq_self]
      exact hmatch
    rw [hKnil, hself, List.nil_append]
  · intro w' hne
    rw [h2, List.filter_append]
    have hnil' : rows.filter (matchRow w') = [] := by
      rw [List.filter_eq_nil_iff]
      intro r hr
      simp [hmatch' w' hne r hr]
    have hKpass : ((ws.drop 1).filter (fun r => !matchRow w r)).filter (matchRow w')
        = (ws.drop 1).filter (matchRow w') := by
      rw [List.filter_filter]
      refine List.filter_congr ?_
      intro r _
      cases hcase : matchRow w' r with
      | false => rfl
      | true =>
        have hwm : matchRow w r = false := by
          by_contra hc
          exact hne (matchRow_inj w' w r hcase (by simpa using hc))
        simp [hwm]
    rw [hnil', hKpass, List.append_nil]

/-- Witness for claim C1: one deal with product `"A"`, written twice onto a
sheet that already holds a row of another week. -/
theorem claim_C1_snapshot_merge_idempotent_witness :
    (product_sheet_run
          (product_sheet_run [[some (.vstr "hdr".data)], [some (.vstr "w1".data)]]
            (dictGetD (build_rows
                [⟨some "7".data, some "Deal".data, some "5".data, none, none, none,
                  none, none, none, some "A".data⟩]
                "2026-01-05".data [] [] [] ["A".data] [] [] []) "A".data [])
            "2026-01-05".data)
          (dictGetD (build_rows
              [⟨some "7".data, some "Deal".data, some "5".data, none, none, none,
                none, none, none, some "A".data⟩]
              "2026-01-05".data [] [] [] ["A".data] [] [] []) "A".data [])
          "2026-01-05".data).drop 1
        = (product_sheet_run [[some (.vstr "hdr".data)], [some (.vstr "w1".data)]]
            (dictGetD (build_rows
                [⟨some "7".data, some "Deal".data, some "5".data, none, none, none,
                  none, none, none, some "A".data⟩]
                "2026-01-05".data [] [] [] ["A".data] [] [] []) "A".data [])
            "2026-01-05".data).drop 1 :=
  (claim_C1_snapshot_merge_idempotent
      [⟨some "7".data, some "Deal".data, some "5".data, none, none, none, none,
        none, none, some "A".data⟩]
      "2026-01-05".data (by decide) [] [] [] ["A".data] [] [] [] "A".data
      [[some (.vstr "hdr".data)], [some (.vstr "w1".data)]] _ rfl).1

end HubspotAutomations

namespace HubspotAutomations

/-! ## Grid lemmas (for claim C2) -/

/-- `headD` is `getD 0`. -/
lemma headD_eq_getD (l : Sheet) : l.headD [] = l.getD 0 [] := by
  cases l <;> rfl

/-- Padding with empty cells does not change reads. -/
lemma getD_padTo (l : List Cell) (n i : Nat) :
    (padTo l n).getD i none = l.getD i none := by
  unfold padTo
  by_cases h : i < l.length
  · rw [List.getD_append _ _ _ _ h]
  · rw [List.getD_append_right _ _ _ _ (le_of_not_lt h),
      List.getD_eq_default _ _ (le_of_not_lt h)]
    rw [List.getD_eq_getElem?_getD, List.getElem?_replicate]
    split <;> rfl

/-- Padding with empty rows does not change reads. -/
lemma getD_padRows (ws : Sheet) (n i : Nat) :
    (padRows ws n).getD i [] = ws.getD i [] := by
  unfold padRows
  by_cases h : i < ws.length
  · rw [List.getD_append _ _ _ _ h]
  · rw [List.getD_append_right _ _ _ _ (le_of_not_lt h),
      List.getD_eq_default _ _ (le_of_not_lt h)]
    rw [List.getD_eq_getElem?_getD, List.getElem?_replicate]
    split <;> rfl

lemma length_padTo (l : List Cell) (n : Nat) : (padTo l n).length = max l.length n := by
  simp [padTo]; omega

lemma length_padRows (ws : Sheet) (n : Nat) : (padRows ws n).length = max ws.length n := by
  simp [padRows]; omega

/-- `setCell` without the `let`. -/
lemma setCell_def (ws : Sheet) (r c : Nat) (v : Val) :
    setCell ws r c v
      = (padRows ws r).set (r - 1)
          ((padTo ((padRows ws r).getD (r - 1) []) c).set (c - 1) (some v)) := rfl

lemma length_setCell (ws : Sheet) (r c : Nat) (v : Val) :
    (setCell ws r c v).length = max ws.length r := by
  rw [setCell_def, List.length_set, length_padRows]

lemma maxRow_setCell (ws : Sheet) (r c : Nat) (v : Val) :
    maxRow (setCell ws r c v) = max (maxRow ws) r := by
  unfold maxRow
  rw [length_setCell]
  omega

/-- `getD` after `set` at the same in-range index yields the new element. -/
lemma getD_set_self {α : Type} (l : List α) (i : Nat) (a d : α) (h : i < l.length) :
    (l.set i a).getD i d = a := by
  rw [List.getD_eq_getElem?_getD, List.getElem?_set_self h, Option.getD_some]

/-- `getD` after `set` at a different index is unchanged. -/
lemma getD_set_ne {α : Type} (l : List α) (i j : Nat) (a d : α) (h : i ≠ j) :
    (l.set i a).getD j d = l.getD j d := by
  rw [List.getD_eq_getElem?_getD, List.getElem?_set_ne h, ← List.getD_eq_getElem?_getD]

/-- Reading after a write: the written cell holds the value, everything
else is unchanged (for 1-based coordinates). -/
lemma getCell_setCell (ws : Sheet) (r c : Nat) (v : Val) (hr : 1 ≤ r) (hc : 1 ≤ c)
    (r' c' : Nat) :
    getCell (setCell ws r c v) r' c'
      = if r' - 1 = r - 1 ∧ c' - 1 = c - 1 then some v else getCell ws r' c' := by
  unfold getCell
  rw [setCell_def]
  by_cases hrow : r' - 1 = r - 1
  · rw [hrow]
    have hlen : r - 1 < (padRows ws r).length := by
      rw [length_padRows]; omega
    rw [getD_set_self _ _ _ _ hlen]
    by_cases hcol : c' - 1 = c - 1
    · rw [hcol, if_pos ⟨rfl, rfl⟩]
      have hclen : c - 1 < (padTo ((padRows ws r).getD (r - 1) []) c).length := by
        rw [length_padTo]; omega
      rw [getD_set_self _ _ _ _ hclen]
    · rw [if_neg (fun h => hcol h.2)]
      have hne : c - 1 ≠ c' - 1 := fun h => hcol h.symm
      rw [getD_set_ne _ _ _ _ _ hne, getD_padTo, getD_padRows]
  · rw [if_neg (fun h => hrow h.1)]
    have hne : r - 1 ≠ r' - 1 := fun h => hrow h.symm
    rw [getD_set_ne _ _ _ _ _ hne, getD_padRows]

/-- A write at row 2 or below keeps the header row (as a list). -/
lemma setCell_headD_of_two (ws : Sheet) (r c : Nat) (v : Val) (hr : 2 ≤ r) :
    (setCell ws r c v).headD [] = ws.headD [] := by
  rw [headD_eq_getD, headD_eq_getD, setCell_def]
  rw [getD_set_ne _ _ _ _ _ (by omega : r - 1 ≠ 0), getD_padRows]

/-- A write at row 1: the header row becomes the padded-and-set row. -/
lemma setCell_row1_headD (ws : Sheet) (c : Nat) (v : Val) :
    (setCell ws 1 c v).headD [] = (padTo (ws.headD []) c).set (c - 1) (some v) := by
  rw [headD_eq_getD, setCell_def]
  have hlen : 0 < (padRows ws 1).length := by rw [length_padRows]; omega
  rw [show (1 : Nat) - 1 = 0 from rfl, getD_set_self _ _ _ _ hlen,
    getD_padRows, ← headD_eq_getD]

/-- The seed is a lower bound of the running maximum. -/
lemma le_foldl_max (l : List Row) : ∀ init : Nat,
    init ≤ l.foldl (fun m row => max m row.length) init := by
  induction l with
  | nil => intro init; exact le_refl _
  | cons r t ih => intro init; exact le_trans (le_max_left _ _) (ih _)

/-- Every row's length is bounded by the running maximum. -/
lemma mem_le_foldl_max (l : List Row) : ∀ (init : Nat) (row : Row), row ∈ l →
    row.length ≤ l.foldl (fun m row => max m row.length) init := by
  induction l with
  | nil => intro init row h; simp at h
  | cons r t ih =>
    intro init row h
    rcases List.mem_cons.1 h with h | h
    · subst h
      exact le_trans (le_max_right _ _) (le_foldl_max t _)
    · exact ih _ row h

/-- The header row is no longer than `max_column`. -/
lemma headD_length_le_maxCol (ws : Sheet) : (ws.headD []).length ≤ maxCol ws := by
  cases ws with
  | nil => simp [maxCol]
  | cons r t =>
    have h := mem_le_foldl_max (r :: t) 0 r (List.mem_cons_self _ _)
    unfold maxCol
    simp only [List.headD_cons]
    omega

/-- A stored header cell lies within `max_column`. -/
lemma getCell_row1_le_maxCol (ws : Sheet) (c : Nat) (v : Val)
    (h : getCell ws 1 c = some v) : c ≤ maxCol ws := by
  have hlen : c - 1 < (ws.getD 0 []).length := by
    by_contra hlt
    unfold getCell at h
    rw [show (1 : Nat) - 1 = 0 from rfl] at h
    rw [List.getD_eq_getElem?_getD, List.getElem?_eq_none (le_of_not_lt hlt)] at h
    simp at h
  have h2 := headD_length_le_maxCol ws
  rw [headD_eq_getD] at h2
  omega

lemma headerCells_length (ws : Sheet) : (headerCells ws).length = maxCol ws := by
  simp [headerCells]

/-- A header cell within `max_column` appears in the `headers` list. -/
lemma headerCells_mem_of_getCell (ws : Sheet) (c : Nat) (hc1 : 1 ≤ c)
    (hc2 : c ≤ maxCol ws) (x : Cell) (h : getCell ws 1 c = x) :
    x ∈ headerCells ws := by
  unfold headerCells
  refine List.mem_map.2 ⟨c, ?_, h⟩
  rw [List.mem_range']
  exact ⟨c - 1, by omega, by omega⟩

/-- Every element of the `headers` list is some header cell. -/
lemma getCell_of_mem_headerCells (ws : Sheet) (x : Cell) (h : x ∈ headerCells ws) :
    ∃ c, 1 ≤ c ∧ c ≤ maxCol ws ∧ getCell ws 1 c = x := by
  unfold headerCells at h
  obtain ⟨c, hc, hx⟩ := List.mem_map.1 h
  rw [List.mem_range'] at hc
  obtain ⟨i, hi, hci⟩ := hc
  exact ⟨c, by omega, by omega, hx⟩

/-- Indexing the `headers` list reads the corresponding header cell. -/
lemma headerCells_getD (ws : Sheet) (j : Nat) (hj : j < maxCol ws) :
    (headerCells ws).getD j none = getCell ws 1 (1 + j) := by
  unfold headerCells
  rw [List.getD_eq_getElem?_getD]
  have hlen : j < (List.range' 1 (maxCol ws)).length := by simp [hj]
  rw [List.getElem?_map, List.getElem?_eq_getElem hlen]
  simp [List.getElem_range']

/-- `x in l` holds for the tail when the head differs. -/
lemma listMem_cons_of_ne {α : Type} [DecidableEq α] {a x : α} {t : List α}
    (h : listMem (a :: t) x = true) (hne : a ≠ x) : listMem t x = true := by
  have hm := (listMem_iff _ _).1 h
  rcases List.mem_cons.1 hm with h1 | h1
  · exact absurd h1.symm hne
  · exact (listMem_iff _ _).2 h1

/-- `l.index(x)` is in range when `x in l`. -/
lemma listIdxOf_lt_length {α : Type} [DecidableEq α] (l : List α) (x : α)
    (h : listMem l x = true) : listIdxOf l x < l.length := by
  induction l with
  | nil => simp [listMem] at h
  | cons a t ih =>
    by_cases ha : a = x
    · simp [listIdxOf, ha]
    · have h' := listMem_cons_of_ne h ha
      simp only [listIdxOf, if_neg ha, List.length_cons]
      have := ih h'
      omega

/-- `l[l.index(x)] = x` when `x in l`. -/
lemma listIdxOf_getD {α : Type} [DecidableEq α] (l : List α) (x d : α)
    (h : listMem l x = true) : l.getD (listIdxOf l x) d = x := by
  induction l with
  | nil => simp [listMem] at h
  | cons a t ih =>
    by_cases ha : a = x
    · simp [listIdxOf, ha]
    · have h' := listMem_cons_of_ne h ha
      simp only [listIdxOf, if_neg ha, List.getD_cons_succ]
      exact ih h'

end HubspotAutomations

namespace HubspotAutomations

/-! ## Header-count and phase lemmas for `write_owner_sheet` (claim C2) -/

/-- Padding a row with empty cells does not change the label count. -/
lemma countL_padTo (l : List Cell) (n : Nat) (L : Str) :
    (padTo l n).countP (fun c => decide (c = some (Val.vstr L)))
      = l.countP (fun c => decide (c = some (Val.vstr L))) := by
  unfold padTo
  rw [List.countP_append, List.countP_replicate]
  simp

/-- A row-1 cell read is a lookup in the header row. -/
lemma getCell_one_eq_headD (ws : Sheet) (c : Nat) :
    getCell ws 1 c = (ws.headD []).getD (c - 1) none := by
  unfold getCell
  rw [headD_eq_getD]

/-- An off-default `getD` hit is a member. -/
lemma mem_of_getD_ne_default {α : Type} (l : List α) (i : Nat) (d x : α)
    (h : l.getD i d = x) (hx : x ≠ d) : x ∈ l := by
  by_cases hi : i < l.length
  · rw [List.getD_eq_getElem?_getD, List.getElem?_eq_getElem hi, Option.getD_some] at h
    exact h ▸ List.getElem_mem hi
  · rw [List.getD_eq_default _ _ (le_of_not_lt hi)] at h
    exact absurd h.symm hx

/-- `ensure A1` writes the `"Stage"` anchor. -/
lemma getCell_ensureStageA1_A1 (ws0 : Sheet) :
    getCell (ensureStageA1 ws0) 1 1 = some (Val.vstr "Stage".data) := by
  unfold ensureStageA1
  split
  · rw [getCell_setCell ws0 1 1 _ (le_refl 1) (le_refl 1) 1 1, if_pos ⟨rfl, rfl⟩]
  · rename_i h
    exact not_not.1 h

/-- `ensure A1` never increases the count of week-label header cells. -/
lemma headerCountL_ensureStageA1_le (ws0 : Sheet) (L : Str) (hL : L ≠ "Stage".data) :
    headerCountL (ensureStageA1 ws0) L ≤ headerCountL ws0 L := by
  unfold ensureStageA1
  split
  · unfold headerCountL
    rw [setCell_row1_headD]
    have hlen : 0 < (padTo (ws0.headD []) 1).length := by rw [length_padTo]; omega
    have hps : ¬ ((some (Val.vstr "Stage".data) : Cell) = some (Val.vstr L)) := by
      intro h
      injection h with h2
      injection h2 with h3
      exact hL h3.symm
    rw [show (1 : Nat) - 1 = 0 from rfl, List.countP_set _ _ _ _ hlen, countL_padTo,
      decide_eq_false hps]
    simp only [Bool.false_eq_true, if_false]
    omega
  · exact le_refl _

/-- `ensure A1` is the identity when the anchor is already present. -/
lemma ensureStageA1_of_A1 (ws0 : Sheet)
    (h : getCell ws0 1 1 = some (Val.vstr "Stage".data)) :
    ensureStageA1 ws0 = ws0 := by
  unfold ensureStageA1
  rw [if_neg (not_not_intro h)]

/-- The `headers` list starts with the `A1` cell. -/
lemma headerCells_cons (ws : Sheet) :
    headerCells ws
      = getCell ws 1 1
        :: (List.range' 2 (maxCol ws - 1)).map (fun c => getCell ws 1 c) := by
  unfold headerCells
  obtain ⟨k, hk⟩ : ∃ k, maxCol ws = k + 1 := ⟨maxCol ws - 1, by unfold maxCol; omega⟩
  rw [hk, List.range'_succ, Nat.add_sub_cancel, List.map_cons]

/-- `listIdxOf` steps over a differing head. -/
lemma listIdxOf_cons_ne {α : Type} [DecidableEq α] {a x : α} (t : List α) (h : a ≠ x) :
    listIdxOf (a :: t) x = listIdxOf t x + 1 := by
  simp [listIdxOf, h]

end HubspotAutomations

namespace HubspotAutomations

/-- `findWeekCol` on a sheet whose header already carries the label keeps
the sheet unchanged. -/
lemma findWeekCol_of_mem (ws1 : Sheet) (L : Str)
    (hmem : listMem (headerCells ws1) (some (Val.vstr L)) = true) :
    (findWeekCol ws1 L).1 = ws1 := by
  unfold findWeekCol
  simp [hmem]

/-- What the week-column phase guarantees: the chosen column is at least 2,
bears the label, the `A1` anchor survives, the label now heads exactly one
column, and `max_row` is unchanged. -/
lemma findWeekCol_spec (ws1 : Sheet) (L : Str)
    (hA1 : getCell ws1 1 1 = some (Val.vstr "Stage".data)) (hL : L ≠ "Stage".data)
    (hcnt : headerCountL ws1 L ≤ 1) :
    2 ≤ (findWeekCol ws1 L).2
    ∧ getCell (findWeekCol ws1 L).1 1 1 = some (Val.vstr "Stage".data)
    ∧ getCell (findWeekCol ws1 L).1 1 (findWeekCol ws1 L).2 = some (Val.vstr L)
    ∧ headerCountL (findWeekCol ws1 L).1 L = 1
    ∧ maxRow (findWeekCol ws1 L).1 = maxRow ws1 := by
  have hSL : (some (Val.vstr "Stage".data) : Cell) ≠ some (Val.vstr L) := by
    intro h
    injection h with h2
    injection h2 with h3
    exact hL h3.symm
  by_cases hmem : listMem (headerCells ws1) (some (Val.vstr L)) = true
  · have heq : findWeekCol ws1 L
        = (ws1, listIdxOf (headerCells ws1) (some (Val.vstr L)) + 1) := by
      unfold findWeekCol
      simp [hmem]
    have hlt : listIdxOf (headerCells ws1) (some (Val.vstr L))
        < (headerCells ws1).length := listIdxOf_lt_length _ _ hmem
    have hlen := headerCells_length ws1
    have hcell : getCell ws1 1 (1 + listIdxOf (headerCells ws1) (some (Val.vstr L)))
        = some (Val.vstr L) := by
      rw [← headerCells_getD ws1 _ (by omega)]
      exact listIdxOf_getD _ _ _ hmem
    have hidx1 : 1 ≤ listIdxOf (headerCells ws1) (some (Val.vstr L)) := by
      rw [headerCells_cons ws1,
        listIdxOf_cons_ne _ (by rw [hA1]; exact hSL)]
      omega
    have hpos : 0 < headerCountL ws1 L := by
      unfold headerCountL
      rw [List.countP_pos_iff]
      refine ⟨some (Val.vstr L), ?_, by simp⟩
      refine mem_of_getD_ne_default (ws1.headD [])
        (listIdxOf (headerCells ws1) (some (Val.vstr L))) none
        (some (Val.vstr L)) ?_ (by simp)
      have h2 := hcell
      rw [getCell_one_eq_headD] at h2
      simpa using h2
    rw [heq]
    refine ⟨?_, hA1, ?_, ?_, rfl⟩
    · show 2 ≤ listIdxOf (headerCells ws1) (some (Val.vstr L)) + 1
      omega
    · have h3 := hcell
      rw [Nat.add_comm 1 _] at h3
      exact h3
    · show headerCountL ws1 L = 1
      omega
  · have heq : findWeekCol ws1 L
        = (setCell ws1 1 (maxCol ws1 + 1) (Val.vstr L), maxCol ws1 + 1) := by
      unfold findWeekCol
      simp [hmem]
    have hmc : 1 ≤ maxCol ws1 := by unfold maxCol; omega
    have hlenh := headD_length_le_maxCol ws1
    have hplen : maxCol ws1 + 1 - 1 < (padTo (ws1.headD []) (maxCol ws1 + 1)).length := by
      rw [length_padTo]
      omega
    have helem : (padTo (ws1.headD []) (maxCol ws1 + 1)).getD (maxCol ws1 + 1 - 1) none
        = none := by
      rw [getD_padTo, List.getD_eq_default]
      omega
    rw [List.getD_eq_getElem?_getD, List.getElem?_eq_getElem hplen, Option.getD_some]
      at helem
    have hcount0 : headerCountL ws1 L = 0 := by
      unfold headerCountL
      rw [List.countP_eq_zero]
      intro a ha hpa
      rw [decide_eq_true_eq] at hpa
      subst hpa
      obtain ⟨j, hj, hjv⟩ := List.mem_iff_getElem.1 ha
      apply hmem
      rw [listMem_iff]
      refine headerCells_mem_of_getCell ws1 (j + 1) (by omega) (by omega) _ ?_
      rw [getCell_one_eq_headD]
      simp only [Nat.add_sub_cancel]
      rw [List.getD_eq_getElem?_getD, List.getElem?_eq_getElem hj, Option.getD_some, hjv]
    rw [heq]
    refine ⟨by omega, ?_, ?_, ?_, ?_⟩
    · rw [getCell_setCell ws1 1 (maxCol ws1 + 1) _ (by omega) (by omega) 1 1,
        if_neg (fun h => absurd h.2 (by omega))]
      exact hA1
    · rw [getCell_setCell ws1 1 (maxCol ws1 + 1) _ (by omega) (by omega) 1 (maxCol ws1 + 1),
        if_pos ⟨rfl, rfl⟩]
    · unfold headerCountL at hcount0 ⊢
      rw [setCell_row1_headD, List.countP_set _ _ _ _ hplen, countL_padTo, helem, hcount0]
      simp
    · rw [maxRow_setCell]
      unfold maxRow
      omega

end HubspotAutomations

namespace HubspotAutomations

/-- `appendStageStep` on an explicit triple. -/
lemma appendStageStep_eq (ws : Sheet) (er : List (Val × Nat)) (nr : Nat) (st : Str) :
    appendStageStep (ws, er, nr) st
      = if (dictGet? er (Val.vstr st)).isSome then (ws, er, nr)
        else (setCell ws nr 1 (Val.vstr st), dictSet er (Val.vstr st) nr, nr + 1) := rfl

/-- One appending step preserves the stage-row invariant: header row fixed,
`next_row` past `max_row`, every `existing_rows` entry a stored col-1 label. -/
lemma appendStageStep_inv (h₀ : Row) (s : Sheet × List (Val × Nat) × Nat) (st : Str)
    (h1 : s.1.headD [] = h₀) (h2 : maxRow s.1 < s.2.2)
    (h3 : ∀ v r, (v, r) ∈ s.2.1 → 2 ≤ r ∧ r ≤ maxRow s.1 ∧ getCell s.1 r 1 = some v) :
    (appendStageStep s st).1.headD [] = h₀
    ∧ maxRow (appendStageStep s st).1 < (appendStageStep s st).2.2
    ∧ ∀ v r, (v, r) ∈ (appendStageStep s st).2.1 →
        2 ≤ r ∧ r ≤ maxRow (appendStageStep s st).1
        ∧ getCell (appendStageStep s st).1 r 1 = some v := by
  obtain ⟨ws, er, nr⟩ := s
  simp only at h1 h2 h3
  rw [appendStageStep_eq]
  by_cases hk : (dictGet? er (Val.vstr st)).isSome = true
  · rw [if_pos hk]
    exact ⟨h1, h2, h3⟩
  · rw [if_neg hk]
    have hnr2 : 2 ≤ nr := by
      have : 1 ≤ maxRow ws := by unfold maxRow; omega
      omega
    have hmr : maxRow (setCell ws nr 1 (Val.vstr st)) = nr := by
      rw [maxRow_setCell]
      omega
    refine ⟨?_, ?_, ?_⟩
    · show (setCell ws nr 1 (Val.vstr st)).headD [] = h₀
      rw [setCell_headD_of_two _ _ _ _ hnr2]
      exact h1
    · show maxRow (setCell ws nr 1 (Val.vstr st)) < nr + 1
      omega
    · intro v r hvr
      rcases dictSet_mem _ _ _ _ hvr with hold | hnew
      · obtain ⟨ha, hb, hc⟩ := h3 v r hold
        refine ⟨ha, ?_, ?_⟩
        · show r ≤ maxRow (setCell ws nr 1 (Val.vstr st))
          omega
        · show getCell (setCell ws nr 1 (Val.vstr st)) r 1 = some v
          rw [getCell_setCell ws nr 1 _ (by omega) (by omega) r 1,
            if_neg (fun h => absurd h.1 (by omega))]
          exact hc
      · rw [Prod.mk.injEq] at hnew
        obtain ⟨hv, hr⟩ := hnew
        subst hv
        subst hr
        refine ⟨hnr2, ?_, ?_⟩
        · show r ≤ maxRow (setCell ws r 1 (Val.vstr st))
          omega
        · show getCell (setCell ws r 1 (Val.vstr st)) r 1 = some (Val.vstr st)
          rw [getCell_setCell ws r 1 _ (by omega) (by omega) r 1, if_pos ⟨rfl, rfl⟩]

/-- The stage-appending fold preserves the invariant. -/
lemma appendStages_fold_inv (h₀ : Row) (stages : List Str) :
    ∀ (s : Sheet × List (Val × Nat) × Nat),
      s.1.headD [] = h₀ → maxRow s.1 < s.2.2 →
      (∀ v r, (v, r) ∈ s.2.1 → 2 ≤ r ∧ r ≤ maxRow s.1 ∧ getCell s.1 r 1 = some v) →
      (stages.foldl appendStageStep s).1.headD [] = h₀
      ∧ maxRow (stages.foldl appendStageStep s).1 < (stages.foldl appendStageStep s).2.2
      ∧ ∀ v r, (v, r) ∈ (stages.foldl appendStageStep s).2.1 →
          2 ≤ r ∧ r ≤ maxRow (stages.foldl appendStageStep s).1
          ∧ getCell (stages.foldl appendStageStep s).1 r 1 = some v := by
  induction stages with
  | nil => intro s h1 h2 h3; exact ⟨h1, h2, h3⟩
  | cons st rest ih =>
    intro s h1 h2 h3
    rw [List.foldl_cons]
    obtain ⟨g1, g2, g3⟩ := appendStageStep_inv h₀ s st h1 h2 h3
    exact ih _ g1 g2 g3

/-- A step never loses an `existing_rows` key. -/
lemma appendStageStep_keys (s : Sheet × List (Val × Nat) × Nat) (st : Str) (x : Val)
    (h : (dictGet? s.2.1 x).isSome) : (dictGet? (appendStageStep s st).2.1 x).isSome := by
  obtain ⟨ws, er, nr⟩ := s
  simp only at h
  rw [appendStageStep_eq]
  by_cases hk : (dictGet? er (Val.vstr st)).isSome = true
  · rw [if_pos hk]
    exact h
  · rw [if_neg hk]
    show (dictGet? (dictSet er (Val.vstr st) nr) x).isSome
    rw [dictGet?_dictSet]
    split
    · simp
    · exact h

/-- The appending fold never loses an `existing_rows` key. -/
lemma appendStages_fold_keys (stages : List Str) :
    ∀ (s : Sheet × List (Val × Nat) × Nat) (x : Val), (dictGet? s.2.1 x).isSome →
      (dictGet? (stages.foldl appendStageStep s).2.1 x).isSome := by
  induction stages with
  | nil => intro s x h; exact h
  | cons st rest ih =>
    intro s x h
    rw [List.foldl_cons]
    exact ih _ x (appendStageStep_keys s st x h)

/-- After the appending fold, every processed stage is an `existing_rows`
key. -/
lemma appendStages_key_of_mem (stages : List Str) :
    ∀ (s : Sheet × List (Val × Nat) × Nat) (st : Str), st ∈ stages →
      (dictGet? ((stages.foldl appendStageStep s).2.1) (Val.vstr st)).isSome := by
  induction stages with
  | nil => intro s st h; simp at h
  | cons a rest ih =>
    intro s st hmem
    rw [List.foldl_cons]
    rcases List.mem_cons.1 hmem with h | h
    · subst h
      apply appendStages_fold_keys
      obtain ⟨ws, er, nr⟩ := s
      rw [appendStageStep_eq]
      by_cases hk : (dictGet? er (Val.vstr st)).isSome = true
      · rw [if_pos hk]
        exact hk
      · rw [if_neg hk]
        show (dictGet? (dictSet er (Val.vstr st) nr) (Val.vstr st)).isSome
        rw [dictGet?_dictSet, if_pos rfl]
        rfl
    · exact ih _ st h

/-- When every stage is already an `existing_rows` key, the appending fold
is the identity. -/
lemma appendStages_noop (stages : List Str) :
    ∀ (s : Sheet × List (Val × Nat) × Nat),
      (∀ st ∈ stages, (dictGet? s.2.1 (Val.vstr st)).isSome) →
      stages.foldl appendStageStep s = s := by
  induction stages with
  | nil => intro s _; rfl
  | cons a rest ih =>
    intro s h
    rw [List.foldl_cons]
    have hstep : appendStageStep s a = s := by
      obtain ⟨ws, er, nr⟩ := s
      rw [appendStageStep_eq]
      exact if_pos (h a (List.mem_cons_self _ _))
    rw [hstep]
    exact ih s (fun st hst => h st (List.mem_cons_of_mem _ hst))

end HubspotAutomations

namespace HubspotAutomations

/-- `existingRows` is the fold of `erStep`. -/
lemma existingRows_eq (ws : Sheet) :
    existingRows ws = (List.range' 2 (maxRow ws - 1)).foldl (erStep ws) [] := rfl

/-- An `erStep` fold preserves entry soundness. -/
lemma erStep_fold_sound (ws : Sheet) (l : List Nat)
    (hl : ∀ r ∈ l, 2 ≤ r ∧ r ≤ maxRow ws) :
    ∀ er : List (Val × Nat),
      (∀ v r, (v, r) ∈ er → 2 ≤ r ∧ r ≤ maxRow ws ∧ getCell ws r 1 = some v) →
      ∀ v r, (v, r) ∈ l.foldl (erStep ws) er →
        2 ≤ r ∧ r ≤ maxRow ws ∧ getCell ws r 1 = some v := by
  induction l with
  | nil => intro er h v r hm; exact h v r hm
  | cons r₀ rest ih =>
    intro er h v r hm
    rw [List.foldl_cons] at hm
    refine ih (fun r hr => hl r (List.mem_cons_of_mem _ hr)) _ ?_ v r hm
    intro v' r' hm'
    unfold erStep at hm'
    split at hm'
    · rename_i v₀ hc
      split at hm'
      · rcases dictSet_mem _ _ _ _ hm' with hold | hnew
        · exact h v' r' hold
        · rw [Prod.mk.injEq] at hnew
          obtain ⟨hv, hr⟩ := hnew
          subst hv
          subst hr
          obtain ⟨hb1, hb2⟩ := hl r' (List.mem_cons_self _ _)
          exact ⟨hb1, hb2, hc⟩
      · exact h v' r' hm'
    · exact h v' r' hm'

/-- Every `existing_rows` entry points at a data row storing its key
in column 1. -/
lemma existingRows_inv (ws : Sheet) :
    ∀ v r, (v, r) ∈ existingRows ws →
      2 ≤ r ∧ r ≤ maxRow ws ∧ getCell ws r 1 = some v := by
  rw [existingRows_eq]
  refine erStep_fold_sound ws _ ?_ [] (by simp)
  intro r hr
  rw [List.mem_range'] at hr
  obtain ⟨i, hi, hri⟩ := hr
  have h1 : 1 ≤ maxRow ws := by unfold maxRow; omega
  omega

/-- An `erStep` fold never loses a key. -/
lemma erStep_fold_keys (ws : Sheet) (l : List Nat) :
    ∀ (er : List (Val × Nat)) (x : Val), (dictGet? er x).isSome →
      (dictGet? (l.foldl (erStep ws) er) x).isSome := by
  induction l with
  | nil => intro er x h; exact h
  | cons r₀ rest ih =>
    intro er x h
    rw [List.foldl_cons]
    refine ih _ x ?_
    unfold erStep
    split
    · split
      · rw [dictGet?_dictSet]
        split
        · simp
        · exact h
      · exact h
    · exact h

/-- A truthy column-1 label in the scanned range ends up a key of
`existing_rows`. -/
lemma existingRows_key (ws : Sheet) (r : Nat) (v : Val) (h2 : 2 ≤ r)
    (h3 : r ≤ maxRow ws) (hc : getCell ws r 1 = some v) (ht : valTruthy v = true) :
    (dictGet? (existingRows ws) v).isSome := by
  rw [existingRows_eq]
  have hmem : r ∈ List.range' 2 (maxRow ws - 1) := by
    rw [List.mem_range']
    exact ⟨r - 2, by omega, by omega⟩
  have main : ∀ (l : List Nat) (er : List (Val × Nat)), r ∈ l →
      (dictGet? (l.foldl (erStep ws) er) v).isSome := by
    intro l
    induction l with
    | nil => intro er h; simp at h
    | cons r₀ rest ih =>
      intro er hmem'
      rw [List.foldl_cons]
      rcases List.mem_cons.1 hmem' with h | h
      · subst h
        refine erStep_fold_keys ws rest _ v ?_
        unfold erStep
        rw [hc]
        show (dictGet? (if valTruthy v = true then dictSet er v r else er) v).isSome = true
        rw [if_pos ht, dictGet?_dictSet, if_pos rfl]
        rfl
      · exact ih _ h
  exact main _ [] hmem

end HubspotAutomations

namespace HubspotAutomations

/-- What the final write loop guarantees: header row and `max_row` are
unchanged, column-1 labels survive, rows not named by any stage key keep
their week-column cell, and each stage's sum lands in its row's
week-column cell. -/
lemma writeSums_inv (k : Nat) (hk : 2 ≤ k) (er : List (Val × Nat)) :
    ∀ (sums : List (Str × ℚ)) (ws : Sheet),
      (∀ v r, (v, r) ∈ er → 2 ≤ r ∧ r ≤ maxRow ws ∧ getCell ws r 1 = some v) →
      (sums.map Prod.fst).Nodup →
      (writeSums ws er k sums).headD [] = ws.headD []
      ∧ maxRow (writeSums ws er k sums) = maxRow ws
      ∧ (∀ v r, (v, r) ∈ er → getCell (writeSums ws er k sums) r 1 = some v)
      ∧ (∀ r, (∀ st ∈ sums.map Prod.fst, dictGet? er (Val.vstr st) ≠ some r) →
          getCell (writeSums ws er k sums) r k = getCell ws r k)
      ∧ (∀ st a, (st, a) ∈ sums → ∀ r, dictGet? er (Val.vstr st) = some r →
          getCell (writeSums ws er k sums) r k = some (Val.vnum a)) := by
  intro sums
  induction sums with
  | nil =>
    intro ws hinv hnd
    refine ⟨rfl, rfl, ?_, ?_, ?_⟩
    · intro v r hm
      exact (hinv v r hm).2.2
    · intro r _
      rfl
    · intro st a hm
      simp at hm
  | cons p rest ih =>
    obtain ⟨st, a⟩ := p
    intro ws hinv hnd
    simp only [List.map_cons, List.nodup_cons] at hnd
    have hstep : writeSums ws er k ((st, a) :: rest)
        = writeSums (match dictGet? er (Val.vstr st) with
            | some r => setCell ws r k (Val.vnum a)
            | none => ws) er k rest := by
      unfold writeSums
      rw [List.foldl_cons]
    cases hg : dictGet? er (Val.vstr st) with
    | none =>
      have hws1 : (match dictGet? er (Val.vstr st) with
          | some r => setCell ws r k (Val.vnum a)
          | none => ws) = ws := by rw [hg]
      rw [hstep, hws1]
      obtain ⟨i1, i2, i3, i4, i5⟩ := ih ws hinv hnd.2
      refine ⟨i1, i2, i3, ?_, ?_⟩
      · intro r hr
        exact i4 r (fun st' h' => hr st' (List.mem_cons_of_mem _ h'))
      · intro st' a' hm r hg'
        rcases List.mem_cons.1 hm with he | hm'
        · rw [Prod.mk.injEq] at he
          obtain ⟨h1', h2'⟩ := he
          subst h1'
          rw [hg] at hg'
          exact absurd hg' (by simp)
        · exact i5 st' a' hm' r hg'
    | some r₀ =>
      have hws1 : (match dictGet? er (Val.vstr st) with
          | some r => setCell ws r k (Val.vnum a)
          | none => ws) = setCell ws r₀ k (Val.vnum a) := by rw [hg]
      rw [hstep, hws1]
      have hment := dictGet?_mem er _ _ hg
      obtain ⟨hr2, hrM, hrc⟩ := hinv _ _ hment
      have hmr : maxRow (setCell ws r₀ k (Val.vnum a)) = maxRow ws := by
        rw [maxRow_setCell]
        omega
      have hhd : (setCell ws r₀ k (Val.vnum a)).headD [] = ws.headD [] :=
        setCell_headD_of_two _ _ _ _ hr2
      have hinv1 : ∀ v r, (v, r) ∈ er →
          2 ≤ r ∧ r ≤ maxRow (setCell ws r₀ k (Val.vnum a))
          ∧ getCell (setCell ws r₀ k (Val.vnum a)) r 1 = some v := by
        intro v r hm
        obtain ⟨ha', hb', hc'⟩ := hinv v r hm
        refine ⟨ha', by omega, ?_⟩
        rw [getCell_setCell ws r₀ k _ (by omega) (by omega) r 1,
          if_neg (fun h => absurd h.2 (by omega))]
        exact hc'
      obtain ⟨i1, i2, i3, i4, i5⟩ := ih (setCell ws r₀ k (Val.vnum a)) hinv1 hnd.2
      have hinj : ∀ st' ∈ rest.map Prod.fst, dictGet? er (Val.vstr st') ≠ some r₀ := by
        intro st' hm' hg'
        have hment' := dictGet?_mem er _ _ hg'
        obtain ⟨ha'', hb'', hc''⟩ := hinv _ _ hment'
        rw [hrc] at hc''
        injection hc'' with h2''
        injection h2'' with h3''
        exact hnd.1 (by rw [h3'']; exact hm')
      refine ⟨?_, ?_, i3, ?_, ?_⟩
      · rw [i1, hhd]
      · rw [i2, hmr]
      · intro r hr
        have hrne : r ≠ r₀ := by
          intro hE
          subst hE
          exact hr st (by simp) hg
        rw [i4 r (fun st' h' => hr st' (List.mem_cons_of_mem _ h')),
          getCell_setCell ws r₀ k _ (by omega) (by omega) r k,
          if_neg (fun h => hrne (by omega))]
      · intro st' a' hm r hg'
        rcases List.mem_cons.1 hm with he | hm'
        · rw [Prod.mk.injEq] at he
          obtain ⟨h1', h2'⟩ := he
          subst h1'
          subst h2'
          rw [hg] at hg'
          injection hg' with hE
          subst hE
          rw [i4 r₀ hinj,
            getCell_setCell ws r₀ k _ (by omega) (by omega) r₀ k, if_pos ⟨rfl, rfl⟩]
        · exact i5 st' a' hm' r hg'

end HubspotAutomations

namespace HubspotAutomations

/-- `write_owner_sheet` as phase composition on explicit terms. -/
lemma write_owner_sheet_eq (ws0 : Sheet) (L : Str) (sums : List (Str × ℚ))
    (order : List Str) :
    write_owner_sheet ws0 L sums order
      = writeSums
          ((order ++ sums.map Prod.fst).foldl appendStageStep
            ((findWeekCol (ensureStageA1 ws0) L).1,
              existingRows (findWeekCol (ensureStageA1 ws0) L).1,
              maxRow (findWeekCol (ensureStageA1 ws0) L).1 + 1)).1
          ((order ++ sums.map Prod.fst).foldl appendStageStep
            ((findWeekCol (ensureStageA1 ws0) L).1,
              existingRows (findWeekCol (ensureStageA1 ws0) L).1,
              maxRow (findWeekCol (ensureStageA1 ws0) L).1 + 1)).2.1
          (findWeekCol (ensureStageA1 ws0) L).2
          sums := rfl

/-- One `write_owner_sheet` run, from any sheet whose header carries the
week label at most once: afterwards the label heads exactly one column,
`A1` anchors `"Stage"`, each stage sum sits in its stage's row under the
label column, and every stage name owns a data row. -/
lemma write_owner_sheet_run (ws0 : Sheet) (L : Str) (sums : List (Str × ℚ))
    (order : List Str) (hL : L ≠ "Stage".data) (hcnt : headerCountL ws0 L ≤ 1)
    (hNd : (sums.map Prod.fst).Nodup) :
    headerCountL (write_owner_sheet ws0 L sums order) L = 1
    ∧ getCell (write_owner_sheet ws0 L sums order) 1 1 = some (Val.vstr "Stage".data)
    ∧ (∃ k, 2 ≤ k ∧ getCell (write_owner_sheet ws0 L sums order) 1 k = some (Val.vstr L)
        ∧ ∀ st a, (st, a) ∈ sums → ∃ r, 2 ≤ r
            ∧ r ≤ maxRow (write_owner_sheet ws0 L sums order)
            ∧ getCell (write_owner_sheet ws0 L sums order) r 1 = some (Val.vstr st)
            ∧ getCell (write_owner_sheet ws0 L sums order) r k = some (Val.vnum a))
    ∧ (∀ st ∈ order ++ sums.map Prod.fst, ∃ r, 2 ≤ r
        ∧ r ≤ maxRow (write_owner_sheet ws0 L sums order)
        ∧ getCell (write_owner_sheet ws0 L sums order) r 1 = some (Val.vstr st)) := by
  have hA1 := getCell_ensureStageA1_A1 ws0
  have hc1 : headerCountL (ensureStageA1 ws0) L ≤ 1 :=
    le_trans (headerCountL_ensureStageA1_le ws0 L hL) hcnt
  obtain ⟨f1, f2, f3, f4, f5⟩ := findWeekCol_spec (ensureStageA1 ws0) L hA1 hL hc1
  obtain ⟨g1, g2, g3⟩ := appendStages_fold_inv
    ((findWeekCol (ensureStageA1 ws0) L).1.headD [])
    (order ++ sums.map Prod.fst)
    ((findWeekCol (ensureStageA1 ws0) L).1,
      existingRows (findWeekCol (ensureStageA1 ws0) L).1,
      maxRow (findWeekCol (ensureStageA1 ws0) L).1 + 1)
    rfl (Nat.lt_succ_self _) (existingRows_inv _)
  obtain ⟨w1, w2, w3, w4, w5⟩ := writeSums_inv (findWeekCol (ensureStageA1 ws0) L).2 f1
    ((order ++ sums.map Prod.fst).foldl appendStageStep
      ((findWeekCol (ensureStageA1 ws0) L).1,
        existingRows (findWeekCol (ensureStageA1 ws0) L).1,
        maxRow (findWeekCol (ensureStageA1 ws0) L).1 + 1)).2.1
    sums
    ((order ++ sums.map Prod.fst).foldl appendStageStep
      ((findWeekCol (ensureStageA1 ws0) L).1,
        existingRows (findWeekCol (ensureStageA1 ws0) L).1,
        maxRow (findWeekCol (ensureStageA1 ws0) L).1 + 1)).1
    g3 hNd
  rw [write_owner_sheet_eq]
  refine ⟨?_, ?_, ?_, ?_⟩
  · unfold headerCountL at f4 ⊢
    rw [w1, g1]
    exact f4
  · rw [getCell_one_eq_headD, w1, g1, ← getCell_one_eq_headD]
    exact f2
  · refine ⟨(findWeekCol (ensureStageA1 ws0) L).2, f1, ?_, ?_⟩
    · rw [getCell_one_eq_headD, w1, g1, ← getCell_one_eq_headD]
      exact f3
    · intro st a hm
      have hstm : st ∈ order ++ sums.map Prod.fst :=
        List.mem_append_right _ (List.mem_map.2 ⟨(st, a), hm, rfl⟩)
      have hkey := appendStages_key_of_mem (order ++ sums.map Prod.fst)
        ((findWeekCol (ensureStageA1 ws0) L).1,
          existingRows (findWeekCol (ensureStageA1 ws0) L).1,
          maxRow (findWeekCol (ensureStageA1 ws0) L).1 + 1) st hstm
      obtain ⟨r, hgr⟩ := Option.isSome_iff_exists.1 hkey
      obtain ⟨hr2, hrM, hrc⟩ := g3 _ _ (dictGet?_mem _ _ _ hgr)
      refine ⟨r, hr2, ?_, ?_, ?_⟩
      · rw [w2]
        exact hrM
      · exact w3 _ _ (dictGet?_mem _ _ _ hgr)
      · exact w5 st a hm r hgr
  · intro st hstm
    have hkey := appendStages_key_of_mem (order ++ sums.map Prod.fst)
      ((findWeekCol (ensureStageA1 ws0) L).1,
        existingRows (findWeekCol (ensureStageA1 ws0) L).1,
        maxRow (findWeekCol (ensureStageA1 ws0) L).1 + 1) st hstm
    obtain ⟨r, hgr⟩ := Option.isSome_iff_exists.1 hkey
    obtain ⟨hr2, hrM, hrc⟩ := g3 _ _ (dictGet?_mem _ _ _ hgr)
    refine ⟨r, hr2, ?_, ?_⟩
    · rw [w2]
      exact hrM
    · exact w3 _ _ (dictGet?_mem _ _ _ hgr)

/-- A rerun over a sheet that already carries the anchor, the label column
and all the stage rows appends nothing: `max_row` is unchanged. -/
lemma write_owner_sheet_rerun (W1 : Sheet) (L : Str) (sums : List (Str × ℚ))
    (order : List Str) (hL : L ≠ "Stage".data)
    (hA1 : getCell W1 1 1 = some (Val.vstr "Stage".data))
    (hcnt : headerCountL W1 L ≤ 1)
    (hLab : ∃ k0, 2 ≤ k0 ∧ getCell W1 1 k0 = some (Val.vstr L))
    (hrows : ∀ st ∈ order ++ sums.map Prod.fst, ∃ r, 2 ≤ r ∧ r ≤ maxRow W1
        ∧ getCell W1 r 1 = some (Val.vstr st))
    (hne : ∀ st ∈ order ++ sums.map Prod.fst, st ≠ [])
    (hNd : (sums.map Prod.fst).Nodup) :
    maxRow (write_owner_sheet W1 L sums order) = maxRow W1 := by
  have hens : ensureStageA1 W1 = W1 := ensureStageA1_of_A1 W1 hA1
  obtain ⟨k0, hk0, hck0⟩ := hLab
  have hmem : listMem (headerCells W1) (some (Val.vstr L)) = true := by
    rw [listMem_iff]
    exact headerCells_mem_of_getCell W1 k0 (by omega)
      (getCell_row1_le_maxCol W1 k0 _ hck0) _ hck0
  have hfw : (findWeekCol W1 L).1 = W1 := findWeekCol_of_mem W1 L hmem
  obtain ⟨f1, f2, f3, f4, f5⟩ := findWeekCol_spec W1 L hA1 hL hcnt
  have hkeys : ∀ st ∈ order ++ sums.map Prod.fst,
      (dictGet? (existingRows W1) (Val.vstr st)).isSome := by
    intro st hst
    obtain ⟨r, hr2, hrM, hrc⟩ := hrows st hst
    exact existingRows_key W1 r _ hr2 hrM hrc (strTruthy_of_ne (hne st hst))
  have hnoop : (order ++ sums.map Prod.fst).foldl appendStageStep
      (W1, existingRows W1, maxRow W1 + 1) = (W1, existingRows W1, maxRow W1 + 1) :=
    appendStages_noop _ _ hkeys
  obtain ⟨w1, w2, w3, w4, w5⟩ := writeSums_inv (findWeekCol W1 L).2 f1 (existingRows W1)
    sums W1 (existingRows_inv W1) hNd
  rw [write_owner_sheet_eq, hens, hfw, hnoop]
  show maxRow (writeSums W1 (existingRows W1) (findWeekCol W1 L).2 sums) = maxRow W1
  exact w2

end HubspotAutomations

namespace HubspotAutomations

/-- Appending a fresh sheet does not change other lookups. -/
lemma dictGet?_append_single {κ α : Type} [DecidableEq κ] :
    ∀ (m : List (κ × α)) (n : κ) (v : α) (k : κ), k ≠ n →
      dictGet? (m ++ [(n, v)]) k = dictGet? m k := by
  intro m
  induction m with
  | nil =>
    intro n v k h
    simp only [List.nil_append, dictGet?]
    rw [if_neg (fun hh => h hh.symm)]
  | cons p t ih =>
    obtain ⟨k₀, v₀⟩ := p
    intro n v k h
    simp only [List.cons_append, dictGet?]
    by_cases hk : k₀ = k
    · rw [if_pos hk, if_pos hk]
    · rw [if_neg hk, if_neg hk]
      exact ih n v k h

/-- Looking up a key absent from the key list misses. -/
lemma dictGet?_eq_none_of_not_mem {κ α : Type} [DecidableEq κ] :
    ∀ (m : List (κ × α)) (k : κ), k ∉ m.map Prod.fst → dictGet? m k = none := by
  intro m
  induction m with
  | nil => intro k _; rfl
  | cons p t ih =>
    obtain ⟨k₀, v₀⟩ := p
    intro k h
    simp only [List.map_cons, List.mem_cons, not_or] at h
    unfold dictGet?
    rw [if_neg (fun hh => h.1 hh.symm)]
    exact ih k h.2

/-- Appending a fresh sheet makes its own lookup hit. -/
lemma dictGet?_append_single_self {κ α : Type} [DecidableEq κ] :
    ∀ (m : List (κ × α)) (n : κ) (v : α), dictGet? m n = none →
      dictGet? (m ++ [(n, v)]) n = some v := by
  intro m
  induction m with
  | nil =>
    intro n v _
    simp [dictGet?]
  | cons p t ih =>
    obtain ⟨k₀, v₀⟩ := p
    intro n v h
    unfold dictGet? at h
    simp only [List.cons_append, dictGet?]
    by_cases hk : k₀ = n
    · rw [if_pos hk] at h
      exact absurd h (by simp)
    · rw [if_neg hk] at h
      rw [if_neg hk]
      exact ih n v h

/-- `write_snapshot_to_excel` is the fold of `snapshotStep`. -/
lemma write_snapshot_eq (fs : Option Workbook) (L : Str)
    (data : List (Str × List (Str × ℚ))) (order : List Str) :
    write_snapshot_to_excel fs L data order
      = data.foldl (snapshotStep L order) (fs.getD []) := rfl

/-- A `ensure_sheet` hit returns the workbook unchanged. -/
lemma ensure_sheet_hit (wb : Workbook) (t : Str)
    (hc : listMem (wb.map Prod.fst) (sanitizeTitle t) = true) :
    ensure_sheet wb t = (wb, sanitizeTitle t) := by
  unfold ensure_sheet
  simp [hc]

/-- A `ensure_sheet` miss appends an empty sheet under the truncated title. -/
lemma ensure_sheet_miss (wb : Workbook) (t : Str)
    (hc : ¬ listMem (wb.map Prod.fst) (sanitizeTitle t) = true)
    (hlen : (sanitizeTitle t).length ≤ 31) :
    ensure_sheet wb t = (wb ++ [(sanitizeTitle t, [])], sanitizeTitle t) := by
  unfold ensure_sheet
  simp [hc, List.take_of_length_le hlen]

/-- One owner's step touches no other sheet name. -/
lemma snapshotStep_frame (L : Str) (order : List Str) (wb : Workbook)
    (p : Str × List (Str × ℚ)) (m : Str)
    (hlen : (sanitizeTitle p.1).length ≤ 31) (hm : m ≠ sanitizeTitle p.1) :
    dictGet? (snapshotStep L order wb p) m = dictGet? wb m := by
  unfold snapshotStep
  by_cases hc : listMem (wb.map Prod.fst) (sanitizeTitle p.1) = true
  · rw [ensure_sheet_hit wb p.1 hc]
    show dictGet? (dictSet wb (sanitizeTitle p.1) _) m = dictGet? wb m
    rw [dictGet?_dictSet, if_neg hm]
  · rw [ensure_sheet_miss wb p.1 hc hlen]
    show dictGet? (dictSet (wb ++ [(sanitizeTitle p.1, [])]) (sanitizeTitle p.1) _) m
        = dictGet? wb m
    rw [dictGet?_dictSet, if_neg hm, dictGet?_append_single _ _ _ _ hm]

/-- One owner's step rewrites exactly that owner's sheet through
`write_owner_sheet`. -/
lemma snapshotStep_own (L : Str) (order : List Str) (wb : Workbook)
    (p : Str × List (Str × ℚ)) (hlen : (sanitizeTitle p.1).length ≤ 31) :
    dictGetD (snapshotStep L order wb p) (sanitizeTitle p.1) []
      = write_owner_sheet (dictGetD wb (sanitizeTitle p.1) []) L p.2 order := by
  unfold snapshotStep
  by_cases hc : listMem (wb.map Prod.fst) (sanitizeTitle p.1) = true
  · rw [ensure_sheet_hit wb p.1 hc]
    show dictGetD (dictSet wb (sanitizeTitle p.1)
        (write_owner_sheet (dictGetD wb (sanitizeTitle p.1) []) L p.2 order))
        (sanitizeTitle p.1) []
      = write_owner_sheet (dictGetD wb (sanitizeTitle p.1) []) L p.2 order
    unfold dictGetD
    rw [dictGet?_dictSet, if_pos rfl]
    rfl
  · rw [ensure_sheet_miss wb p.1 hc hlen]
    have hnone : dictGet? wb (sanitizeTitle p.1) = none :=
      dictGet?_eq_none_of_not_mem _ _ (fun hm => hc ((listMem_iff _ _).2 hm))
    have happ : dictGet? (wb ++ [(sanitizeTitle p.1, [])]) (sanitizeTitle p.1)
        = some [] := dictGet?_append_single_self _ _ _ hnone
    show dictGetD (dictSet (wb ++ [(sanitizeTitle p.1, [])]) (sanitizeTitle p.1)
        (write_owner_sheet (dictGetD (wb ++ [(sanitizeTitle p.1, [])])
          (sanitizeTitle p.1) []) L p.2 order))
        (sanitizeTitle p.1) []
      = write_owner_sheet (dictGetD wb (sanitizeTitle p.1) []) L p.2 order
    unfold dictGetD
    rw [dictGet?_dictSet, if_pos rfl, Option.getD_some, happ, hnone]
    rfl

/-- The owner fold touches no sheet outside the processed sanitized names. -/
lemma snapshot_fold_frame (L : Str) (order : List Str) :
    ∀ (data : List (Str × List (Str × ℚ))) (wb : Workbook) (m : Str),
      (∀ q ∈ data, (sanitizeTitle q.1).length ≤ 31) →
      (∀ q ∈ data, sanitizeTitle q.1 ≠ m) →
      dictGet? (data.foldl (snapshotStep L order) wb) m = dictGet? wb m := by
  intro data
  induction data with
  | nil => intro wb m _ _; rfl
  | cons q rest ih =>
    intro wb m hlen hm
    rw [List.foldl_cons,
      ih _ m (fun q' hq' => hlen q' (List.mem_cons_of_mem _ hq'))
        (fun q' hq' => hm q' (List.mem_cons_of_mem _ hq')),
      snapshotStep_frame L order wb q m (hlen q (List.mem_cons_self _ _))
        (fun h => hm q (List.mem_cons_self _ _) h.symm)]

/-- Through the owner fold, each owner's sheet is that owner's
`write_owner_sheet` image of its initial sheet (distinct sanitized names). -/
lemma snapshot_fold_own (L : Str) (order : List Str) :
    ∀ (data : List (Str × List (Str × ℚ))) (wb : Workbook)
      (p : Str × List (Str × ℚ)), p ∈ data →
      (∀ q ∈ data, (sanitizeTitle q.1).length ≤ 31) →
      (data.map (fun q => sanitizeTitle q.1)).Nodup →
      dictGetD (data.foldl (snapshotStep L order) wb) (sanitizeTitle p.1) []
        = write_owner_sheet (dictGetD wb (sanitizeTitle p.1) []) L p.2 order := by
  intro data
  induction data with
  | nil => intro wb p hp; simp at hp
  | cons q rest ih =>
    intro wb p hp hlen hnd
    simp only [List.map_cons, List.nodup_cons] at hnd
    rw [List.foldl_cons]
    rcases List.mem_cons.1 hp with he | hm
    · subst he
      have hfr : dictGet? (rest.foldl (snapshotStep L order) (snapshotStep L order wb p))
          (sanitizeTitle p.1) = dictGet? (snapshotStep L order wb p) (sanitizeTitle p.1) := by
        apply snapshot_fold_frame
        · exact fun q' hq' => hlen q' (List.mem_cons_of_mem _ hq')
        · intro q' hq' heq
          exact hnd.1 (heq ▸ List.mem_map.2 ⟨q', hq', rfl⟩)
      have hown := snapshotStep_own L order wb p (hlen p (List.mem_cons_self _ _))
      unfold dictGetD at hown ⊢
      rw [hfr]
      exact hown
    · have hne : sanitizeTitle p.1 ≠ sanitizeTitle q.1 := by
        intro heq
        exact hnd.1 (heq ▸ List.mem_map.2 ⟨p, hm, rfl⟩)
      rw [ih _ p hm (fun q' hq' => hlen q' (List.mem_cons_of_mem _ hq')) hnd.2]
      have hfr := snapshotStep_frame L order wb q (sanitizeTitle p.1)
        (hlen q (List.mem_cons_self _ _)) hne
      unfold dictGetD
      rw [hfr]

end HubspotAutomations

namespace HubspotAutomations

/-- Claim C2, counterexample: `write_snapshot_to_excel` is NOT guaranteed
to leave exactly one header column bearing the week label for every
starting workbook state.  If an owner sheet's header row already carries
the week label twice, both runs find the label (`week_label in headers`),
reuse the first matching column and never deduplicate, so after running
twice the label still heads two columns. -/
theorem claim_C2_counterexample :
    headerCountL
      (dictGetD
        (write_snapshot_to_excel
          (some (write_snapshot_to_excel
            (some [(['O'],
              [[some (Val.vstr "Stage".data), some (Val.vstr ['W']),
                some (Val.vstr ['W'])]])])
            ['W'] [(['O'], [])] []))
          ['W'] [(['O'], [])] [])
        ['O'] [])
      ['W'] = 2 := by decide

/-- Claim C2 (amended): for owner data with pairwise-distinct sanitized
sheet names of at most 31 characters, non-empty stage names, per-owner
stage keys without duplicates, a week label other than `"Stage"`, and a
starting workbook in which no owner sheet's header carries the week label
more than once, running `write_snapshot_to_excel` twice with the same week
label yields on each owner's sheet: exactly one header column bearing the
label; that column holding, in each stage's row, the sum computed by the
second run; and no rows added by the second run (`max_row` unchanged from
the first run's result). -/
theorem claim_C2_amended (fs : Option Workbook) (L : Str)
    (data : List (Str × List (Str × ℚ))) (order : List Str)
    (hL : L ≠ "Stage".data)
    (hnames : (data.map (fun q => sanitizeTitle q.1)).Nodup)
    (hlen31 : ∀ q ∈ data, (sanitizeTitle q.1).length ≤ 31)
    (hcnt0 : ∀ q ∈ data,
      headerCountL (dictGetD (fs.getD []) (sanitizeTitle q.1) []) L ≤ 1)
    (hNd : ∀ q ∈ data, (q.2.map Prod.fst).Nodup)
    (hst : ∀ q ∈ data, ∀ st ∈ order ++ q.2.map Prod.fst, st ≠ []) :
    ∀ p ∈ data,
      headerCountL (dictGetD (write_snapshot_to_excel
          (some (write_snapshot_to_excel fs L data order)) L data order)
          (sanitizeTitle p.1) []) L = 1
      ∧ (∃ k, 2 ≤ k
          ∧ getCell (dictGetD (write_snapshot_to_excel
              (some (write_snapshot_to_excel fs L data order)) L data order)
              (sanitizeTitle p.1) []) 1 k = some (Val.vstr L)
          ∧ ∀ st a, (st, a) ∈ p.2 → ∃ r, 2 ≤ r
              ∧ getCell (dictGetD (write_snapshot_to_excel
                  (some (write_snapshot_to_excel fs L data order)) L data order)
                  (sanitizeTitle p.1) []) r 1 = some (Val.vstr st)
              ∧ getCell (dictGetD (write_snapshot_to_excel
                  (some (write_snapshot_to_excel fs L data order)) L data order)
                  (sanitizeTitle p.1) []) r k = some (Val.vnum a))
      ∧ maxRow (dictGetD (write_snapshot_to_excel
            (some (write_snapshot_to_excel fs L data order)) L data order)
            (sanitizeTitle p.1) [])
          = maxRow (dictGetD (write_snapshot_to_excel fs L data order)
              (sanitizeTitle p.1) []) := by
  intro p hp
  have h1 : dictGetD (write_snapshot_to_excel fs L data order) (sanitizeTitle p.1) []
      = write_owner_sheet (dictGetD (fs.getD []) (sanitizeTitle p.1) []) L p.2 order := by
    rw [write_snapshot_eq]
    exact snapshot_fold_own L order data (fs.getD []) p hp hlen31 hnames
  have h2 : dictGetD (write_snapshot_to_excel
        (some (write_snapshot_to_excel fs L data order)) L data order)
        (sanitizeTitle p.1) []
      = write_owner_sheet (dictGetD (write_snapshot_to_excel fs L data order)
          (sanitizeTitle p.1) []) L p.2 order := by
    rw [write_snapshot_eq (some (write_snapshot_to_excel fs L data order))]
    exact snapshot_fold_own L order data _ p hp hlen31 hnames
  obtain ⟨r1a, r1b, r1c, r1d⟩ := write_owner_sheet_run
    (dictGetD (fs.getD []) (sanitizeTitle p.1) []) L p.2 order hL (hcnt0 p hp) (hNd p hp)
  obtain ⟨r2a, r2b, r2c, r2d⟩ := write_owner_sheet_run
    (dictGetD (write_snapshot_to_excel fs L data order) (sanitizeTitle p.1) []) L p.2
    order hL (by rw [h1]; exact le_of_eq r1a) (hNd p hp)
  have hrerun := write_owner_sheet_rerun
    (dictGetD (write_snapshot_to_excel fs L data order) (sanitizeTitle p.1) []) L p.2
    order hL
    (by rw [h1]; exact r1b)
    (by rw [h1]; exact le_of_eq r1a)
    (by
      rw [h1]
      obtain ⟨k, hk1, hk2, _⟩ := r1c
      exact ⟨k, hk1, hk2⟩)
    (by rw [h1]; exact r1d)
    (hst p hp) (hNd p hp)
  refine ⟨?_, ?_, ?_⟩
  · rw [h2]
    exact r2a
  · rw [h2]
    obtain ⟨k, hk1, hk2, hrest⟩ := r2c
    refine ⟨k, hk1, hk2, ?_⟩
    intro st a hm
    obtain ⟨r, ha, hbM, hbc, hbk⟩ := hrest st a hm
    exact ⟨r, ha, hbc, hbk⟩
  · rw [h2]
    exact hrerun

/-- Witness for the amended claim C2 at a concrete input: a fresh workbook,
week label `"W"`, one owner `"O"` with one stage `"S"` summing to 1. -/
theorem claim_C2_amended_witness :
    ((['W'] : Str) ≠ "Stage".data)
    ∧ (∀ p ∈ ([(['O'], [(['S'], (1 : ℚ))])] : List (Str × List (Str × ℚ))),
      headerCountL (dictGetD (write_snapshot_to_excel
          (some (write_snapshot_to_excel none ['W'] [(['O'], [(['S'], (1 : ℚ))])] []))
          ['W'] [(['O'], [(['S'], (1 : ℚ))])] [])
          (sanitizeTitle p.1) []) ['W'] = 1
      ∧ (∃ k, 2 ≤ k
          ∧ getCell (dictGetD (write_snapshot_to_excel
              (some (write_snapshot_to_excel none ['W'] [(['O'], [(['S'], (1 : ℚ))])] []))
              ['W'] [(['O'], [(['S'], (1 : ℚ))])] [])
              (sanitizeTitle p.1) []) 1 k = some (Val.vstr ['W'])
          ∧ ∀ st a, (st, a) ∈ p.2 → ∃ r, 2 ≤ r
              ∧ getCell (dictGetD (write_snapshot_to_excel
                  (some (write_snapshot_to_excel none ['W'] [(['O'], [(['S'], (1 : ℚ))])] []))
                  ['W'] [(['O'], [(['S'], (1 : ℚ))])] [])
                  (sanitizeTitle p.1) []) r 1 = some (Val.vstr st)
              ∧ getCell (dictGetD (write_snapshot_to_excel
                  (some (write_snapshot_to_excel none ['W'] [(['O'], [(['S'], (1 : ℚ))])] []))
                  ['W'] [(['O'], [(['S'], (1 : ℚ))])] [])
                  (sanitizeTitle p.1) []) r k = some (Val.vnum a))
      ∧ maxRow (dictGetD (write_snapshot_to_excel
            (some (write_snapshot_to_excel none ['W'] [(['O'], [(['S'], (1 : ℚ))])] []))
            ['W'] [(['O'], [(['S'], (1 : ℚ))])] [])
            (sanitizeTitle p.1) [])
          = maxRow (dictGetD (write_snapshot_to_excel none ['W']
              [(['O'], [(['S'], (1 : ℚ))])] []) (sanitizeTitle p.1) [])) :=
  ⟨by decide,
    claim_C2_amended none ['W'] [(['O'], [(['S'], (1 : ℚ))])] []
      (by decide) (by decide) (by decide) (by decide) (by decide) (by decide)⟩

end HubspotAutomations
